import Mathlib

set_option linter.unusedSectionVars false

/-!
# Verification of the rust-miniscript core (policy compiler and Miniscript AST)

A shallow embedding of the two source files of the repository:

* src/src/policy/compiler.rs   — the policy-to-Miniscript optimizing compiler
  (CompilerExtData, CompilationKey, AstElemExt, insert_elem, the cast closure,
  best_compilations / best_t / best_e / best_w, best_compilation);
* src/src/miniscript/mod.rs    — the Miniscript wrapper type (from_ast,
  from_str printability gate, translate_pk, PartialEq / Ord impls).

The repository modules these two files consume (miniscript/types, the Terminal
AST in miniscript/decode, the Concrete policy type) are not part of the source
tree given to us; where they are needed they are modelled from the natural
language specification (each such definition carries a doc comment starting
with "Modelled from the spec:").

Rust f64 values are modelled as rationals.  Every numeric value the compiler
manipulates on the executions we reason about is a dyadic rational that f64
represents exactly, so this is faithful on those executions.  The single
non-finite value the code produces (f64::INFINITY in AstElemExt::cost_1d) is
modelled by the "none" case of an "Option Rat" cost; f64::MAX (used for the
unsatisfiable False fragment) is modelled by its exact rational value.
Rust HashMaps are modelled as association lists; HashMap iteration order is
unspecified in Rust, the model fixes insertion order.  The unbounded (but
terminating) work-queue loops of the compiler take an explicit fuel argument;
exhausting fuel — and every Rust panic / unreachable — is modelled by the
distinguished failure value "CFail.stuck".
-/

/-! ## Correctness types.

Modelled from the spec: the type-system module (miniscript/types) is not in
the provided source tree; §3 of the spec describes a correctness record with
base ∈ {B, V, K, W}, an input class, and dissatisfiable / unit flags, and §4.2
gives the propagation rules by structural induction, which we reconstruct
here. -/

/-- Modelled from the spec: correctness base, "B yields bool, V asserts true,
K leaves a key, W is a swapped B". -/
inductive MSBase where
  | B | V | K | W
deriving DecidableEq, Repr

/-- Modelled from the spec: input class of a fragment (how many stack
elements it consumes and whether the top one may be zero). -/
inductive MSInput where
  | zero | one | oneNonZero | any | anyNonZero
deriving DecidableEq, Repr

/-- Modelled from the spec: the correctness record of the type system. -/
structure Correctness where
  base : MSBase
  input : MSInput
  dissatisfiable : Bool
  unit : Bool
deriving DecidableEq, Repr

/-- Modelled from the spec: dissatisfaction class of the malleability
analysis. -/
inductive MSDissat where
  | dnone | unique | unknown
deriving DecidableEq, Repr

/-- Modelled from the spec: the malleability record: dissatisfaction class,
"safe" (every satisfaction requires a signature), "non_malleable" (no third
party can alter a valid witness). -/
structure Malleability where
  dissat : MSDissat
  safe : Bool
  non_malleable : Bool
deriving DecidableEq, Repr

/-- Modelled from the spec: the full correctness-and-malleability type of a
Miniscript node (the Type struct of the type-system module). -/
structure MSType where
  corr : Correctness
  mall : Malleability
deriving DecidableEq, Repr

/-- Modelled from the spec: the subtype relation on input classes used by the
Pareto filter: an input class is a subtype of another when every fragment
with the former class also has the latter. -/
def MSInput.is_subtype : MSInput → MSInput → Bool
  | x, y =>
    decide (x = y) ||
    match x, y with
    | .oneNonZero, .one => true
    | .oneNonZero, .anyNonZero => true
    | _, .any => true
    | _, _ => false

/-- Modelled from the spec: subtype relation on correctness records. -/
def Correctness.is_subtype (a b : Correctness) : Bool :=
  decide (a.base = b.base) && a.input.is_subtype b.input &&
    (a.dissatisfiable || !b.dissatisfiable) && (a.unit || !b.unit)

/-- Modelled from the spec: subtype relation on dissatisfaction classes
(a known class is a subtype of the unknown class). -/
def MSDissat.is_subtype : MSDissat → MSDissat → Bool
  | x, y => decide (x = y) || decide (y = MSDissat.unknown)

/-- Modelled from the spec: subtype relation on malleability records. -/
def Malleability.is_subtype (a b : Malleability) : Bool :=
  a.dissat.is_subtype b.dissat && (a.safe || !b.safe) &&
    (a.non_malleable || !b.non_malleable)

/-- Modelled from the spec: structural subtype relation on types, used by
CompilationKey.is_subtype. -/
def MSType.is_subtype (a b : MSType) : Bool :=
  a.corr.is_subtype b.corr && a.mall.is_subtype b.mall

/-! ### Correctness propagation rules.

Modelled from the spec (§4.2): for each fragment kind the rule is a pure
function of child types; ill-typed combinations are rejected. -/

/-- Modelled from the spec: input class of a sequential composition (the
second fragment runs after the first). -/
def MSInput.combine : MSInput → MSInput → MSInput
  | .zero, .zero => .zero
  | .zero, .one | .one, .zero => .one
  | .zero, .oneNonZero | .oneNonZero, .zero => .oneNonZero
  | .oneNonZero, _ | .anyNonZero, _ => .anyNonZero
  | _, _ => .any

namespace Correctness

/-- Modelled from the spec: type of the True terminal. -/
def from_true : Correctness := ⟨.B, .zero, false, true⟩

/-- Modelled from the spec: type of the False terminal. -/
def from_false : Correctness := ⟨.B, .zero, true, true⟩

/-- Modelled from the spec: type of the Pk terminal. -/
def from_pk : Correctness := ⟨.K, .oneNonZero, true, true⟩

/-- Modelled from the spec: type of the PkH terminal. -/
def from_pk_h : Correctness := ⟨.K, .anyNonZero, true, true⟩

/-- Modelled from the spec: type of the ThreshM multisig terminal. -/
def from_multi : Correctness := ⟨.B, .anyNonZero, true, true⟩

/-- Modelled from the spec: type of the hash-preimage terminals. -/
def from_hash : Correctness := ⟨.B, .oneNonZero, true, true⟩

/-- Modelled from the spec: type of the After and Older terminals. -/
def from_time : Correctness := ⟨.B, .zero, false, false⟩

/-- Modelled from the spec: the Alt wrapper takes B to W. -/
def cast_alt (c : Correctness) : Option Correctness :=
  if c.base = .B then some ⟨.W, .any, c.dissatisfiable, c.unit⟩ else none

/-- Modelled from the spec: the Swap wrapper takes a one-input B to W. -/
def cast_swap (c : Correctness) : Option Correctness :=
  if c.base = .B ∧ (c.input = .one ∨ c.input = .oneNonZero) then
    some ⟨.W, .any, c.dissatisfiable, c.unit⟩
  else none

/-- Modelled from the spec: the Check wrapper takes K to B. -/
def cast_check (c : Correctness) : Option Correctness :=
  if c.base = .K then some ⟨.B, c.input, c.dissatisfiable, true⟩ else none

/-- Modelled from the spec: the DupIf wrapper takes a zero-input V to B;
DupIf of a non-zero-input fragment is ill-formed. -/
def cast_dupif (c : Correctness) : Option Correctness :=
  if c.base = .V ∧ c.input = .zero then
    some ⟨.B, .oneNonZero, true, true⟩
  else none

/-- Modelled from the spec: the Verify wrapper takes B to V. -/
def cast_verify (c : Correctness) : Option Correctness :=
  if c.base = .B then some ⟨.V, c.input, false, false⟩ else none

/-- Modelled from the spec: the NonZero wrapper takes a non-zero-input B
to B. -/
def cast_nonzero (c : Correctness) : Option Correctness :=
  if c.base = .B ∧ (c.input = .oneNonZero ∨ c.input = .anyNonZero) then
    some ⟨.B, c.input, true, c.unit⟩
  else none

/-- Modelled from the spec: the ZeroNotEqual wrapper takes B to B, making
the result unit. -/
def cast_zeronotequal (c : Correctness) : Option Correctness :=
  if c.base = .B then some ⟨.B, c.input, c.dissatisfiable, true⟩ else none

/-- Modelled from the spec: AndV(V, X) → X.  -/
def and_v (l r : Correctness) : Option Correctness :=
  if l.base = .V ∧ r.base ≠ .W then
    some ⟨r.base, l.input.combine r.input, false, r.unit⟩
  else none

/-- Modelled from the spec: AndB(B, W) → B. -/
def and_b (l r : Correctness) : Option Correctness :=
  if l.base = .B ∧ r.base = .W then
    some ⟨.B, l.input.combine r.input, l.dissatisfiable && r.dissatisfiable,
      true⟩
  else none

/-- Modelled from the spec: OrB(B/d, W/d) → B. -/
def or_b (l r : Correctness) : Option Correctness :=
  if l.base = .B ∧ l.dissatisfiable ∧ r.base = .W ∧ r.dissatisfiable then
    some ⟨.B, l.input.combine r.input, true, true⟩
  else none

/-- Modelled from the spec: OrC(B/d/u, V) → V. -/
def or_c (l r : Correctness) : Option Correctness :=
  if l.base = .B ∧ l.dissatisfiable ∧ l.unit ∧ r.base = .V then
    some ⟨.V, .any, false, false⟩
  else none

/-- Modelled from the spec: OrD(B/d/u, B) → B. -/
def or_d (l r : Correctness) : Option Correctness :=
  if l.base = .B ∧ l.dissatisfiable ∧ l.unit ∧ r.base = .B then
    some ⟨.B, .any, r.dissatisfiable, r.unit⟩
  else none

/-- Modelled from the spec: OrI of two same-base non-W fragments. -/
def or_i (l r : Correctness) : Option Correctness :=
  if l.base = r.base ∧ l.base ≠ .W then
    some ⟨l.base, .any, l.dissatisfiable || r.dissatisfiable,
      l.unit && r.unit⟩
  else none

/-- Modelled from the spec: AndOr(B/d/u, X, X) → X; the condition arm must
be dissatisfiable. -/
def and_or (a b c : Correctness) : Option Correctness :=
  if a.base = .B ∧ a.dissatisfiable ∧ a.unit ∧ b.base = c.base ∧
      b.base ≠ .W then
    some ⟨b.base, .any, c.dissatisfiable, b.unit && c.unit⟩
  else none

/-- Modelled from the spec: Thresh(k, subs): the first sub is the E child
(base B, dissatisfiable, unit), all others are W children. -/
def threshold (k : Nat) (subs : List Correctness) : Option Correctness :=
  if (1 ≤ k ∧ k ≤ subs.length) ∧
      (match subs.head? with
        | some c => decide (c.base = .B) && c.dissatisfiable && c.unit
        | none => false) = true ∧
      (subs.tail.all fun c =>
        decide (c.base = .W) && c.dissatisfiable && c.unit) = true then
    some ⟨.B, .any, true, true⟩
  else none

end Correctness

/-! ### Malleability propagation rules.

Modelled from the spec (§4.2): "safe is monotone: a combinator is safe if
all required satisfactions traverse a safe subtree; non_malleable requires
that no subsatisfaction is freely dissatisfiable when a competing branch
satisfies". -/

namespace Malleability

/-- Modelled from the spec: malleability of the True terminal (no
dissatisfaction, no signature required). -/
def from_true : Malleability := ⟨.dnone, false, true⟩

/-- Modelled from the spec: malleability of the False terminal (its unique
dissatisfaction is the empty witness; it has no satisfaction, so it is
vacuously safe). -/
def from_false : Malleability := ⟨.unique, true, true⟩

/-- Modelled from the spec: malleability of the Pk and PkH terminals. -/
def from_pk : Malleability := ⟨.unique, true, true⟩

/-- Modelled from the spec: malleability of the ThreshM terminal. -/
def from_multi : Malleability := ⟨.unique, true, true⟩

/-- Modelled from the spec: hash fragments are dissat-malleable (any
non-preimage dissatisfies) and signature-free. -/
def from_hash : Malleability := ⟨.unknown, false, true⟩

/-- Modelled from the spec: malleability of the After and Older
terminals. -/
def from_time : Malleability := ⟨.dnone, false, true⟩

/-- Modelled from the spec: Alt, Swap, Check and ZeroNotEqual do not change
witnesses, hence do not change malleability. -/
def cast_id (m : Malleability) : Malleability := m

/-- Modelled from the spec: DupIf gains the unique dissatisfaction "0". -/
def cast_dupif (m : Malleability) : Malleability :=
  ⟨.unique, m.safe, m.non_malleable⟩

/-- Modelled from the spec: Verify removes all dissatisfactions. -/
def cast_verify (m : Malleability) : Malleability :=
  ⟨.dnone, m.safe, m.non_malleable⟩

/-- Modelled from the spec: NonZero gains the dissatisfaction "0"; if the
child had dissatisfactions of its own the class becomes unknown. -/
def cast_nonzero (m : Malleability) : Malleability :=
  ⟨if m.dissat = .dnone then .unique else .unknown, m.safe, m.non_malleable⟩

/-- Modelled from the spec: the True cast (and_v with True) removes
dissatisfactions. -/
def cast_true (m : Malleability) : Malleability :=
  ⟨.dnone, m.safe, m.non_malleable⟩

/-- Modelled from the spec: the likely / unlikely casts (or_i with False)
gain the dissatisfaction that selects the False branch. -/
def cast_or_i_false (m : Malleability) : Malleability :=
  ⟨if m.dissat = .dnone then .unique else .unknown, m.safe, m.non_malleable⟩

/-- Modelled from the spec: malleability of AndB. -/
def and_b (l r : Malleability) : Malleability :=
  ⟨match l.dissat, r.dissat with
    | .dnone, .dnone => .dnone
    | .unique, .unique => if l.safe && r.safe then .unique else .unknown
    | _, _ => .unknown,
   l.safe || r.safe, l.non_malleable && r.non_malleable⟩

/-- Modelled from the spec: malleability of AndV. -/
def and_v (l r : Malleability) : Malleability :=
  ⟨match r.dissat with
    | .dnone => .dnone
    | .unique => if l.safe then .dnone else .unique
    | .unknown => if l.safe then .dnone else .unknown,
   l.safe || r.safe, l.non_malleable && r.non_malleable⟩

/-- Modelled from the spec: malleability of OrB; non-malleability requires
both arms uniquely dissatisfiable and one of them safe. -/
def or_b (l r : Malleability) : Malleability :=
  ⟨if l.dissat = .unique ∧ r.dissat = .unique then .unique else .unknown,
   l.safe && r.safe,
   l.non_malleable && r.non_malleable &&
     decide (l.dissat = .unique) && decide (r.dissat = .unique) &&
     (l.safe || r.safe)⟩

/-- Modelled from the spec: malleability of OrD. -/
def or_d (l r : Malleability) : Malleability :=
  ⟨match r.dissat with
    | .dnone => .dnone
    | .unique => if l.dissat = .unique then .unique else .unknown
    | .unknown => .unknown,
   l.safe && r.safe,
   l.non_malleable && r.non_malleable && decide (l.dissat = .unique) &&
     (l.safe || r.safe)⟩

/-- Modelled from the spec: malleability of OrC. -/
def or_c (l r : Malleability) : Malleability :=
  ⟨.dnone, l.safe && r.safe,
   l.non_malleable && r.non_malleable && decide (l.dissat = .unique) &&
     (l.safe || r.safe)⟩

/-- Modelled from the spec: malleability of OrI. -/
def or_i (l r : Malleability) : Malleability :=
  ⟨match l.dissat, r.dissat with
    | .dnone, .dnone => .dnone
    | .unique, .dnone | .dnone, .unique => .unique
    | _, _ => .unknown,
   l.safe && r.safe,
   l.non_malleable && r.non_malleable && (l.safe || r.safe)⟩

/-- Modelled from the spec: malleability of AndOr. -/
def and_or (a b c : Malleability) : Malleability :=
  ⟨match c.dissat with
    | .dnone => .dnone
    | .unique => if a.dissat = .unique then .unique else .unknown
    | .unknown => .unknown,
   (a.safe || b.safe) && c.safe,
   a.non_malleable && b.non_malleable && c.non_malleable &&
     decide (a.dissat = .unique) && (a.safe || b.safe || c.safe)⟩

/-- Modelled from the spec: malleability of Thresh(k, subs): safe unless an
all-unsafe choice of k subsatisfactions exists; non-malleable when every sub
is non-malleable and uniquely dissatisfiable. -/
def threshold (k : Nat) (subs : List Malleability) : Malleability :=
  ⟨if subs.all fun m => decide (m.dissat = .unique) then .unique
    else .unknown,
   decide ((subs.filter fun m => !m.safe).length < k),
   (subs.all fun m =>
     m.non_malleable && decide (m.dissat = .unique)) &&
     decide ((subs.filter fun m => !m.safe).length ≤ subs.length - k)⟩

end Malleability

/-! ### Combined type rules (the Type struct of the type-system module). -/

namespace MSType

/-- Modelled from the spec: full type of the True terminal. -/
def from_true : MSType := ⟨.from_true, .from_true⟩

/-- Modelled from the spec: full type of the False terminal. -/
def from_false : MSType := ⟨.from_false, .from_false⟩

/-- Modelled from the spec: full type of the Pk terminal. -/
def from_pk : MSType := ⟨.from_pk, .from_pk⟩

/-- Modelled from the spec: full type of the PkH terminal. -/
def from_pk_h : MSType := ⟨.from_pk_h, .from_pk⟩

/-- Modelled from the spec: full type of the ThreshM terminal. -/
def from_multi : MSType := ⟨.from_multi, .from_multi⟩

/-- Modelled from the spec: full type of the hash terminals. -/
def from_hash : MSType := ⟨.from_hash, .from_hash⟩

/-- Modelled from the spec: full type of the After and Older terminals. -/
def from_time : MSType := ⟨.from_time, .from_time⟩

/-- Modelled from the spec: Alt cast on full types. -/
def cast_alt (t : MSType) : Option MSType :=
  (t.corr.cast_alt).map fun c => ⟨c, t.mall.cast_id⟩

/-- Modelled from the spec: Swap cast on full types. -/
def cast_swap (t : MSType) : Option MSType :=
  (t.corr.cast_swap).map fun c => ⟨c, t.mall.cast_id⟩

/-- Modelled from the spec: Check cast on full types. -/
def cast_check (t : MSType) : Option MSType :=
  (t.corr.cast_check).map fun c => ⟨c, t.mall.cast_id⟩

/-- Modelled from the spec: DupIf cast on full types. -/
def cast_dupif (t : MSType) : Option MSType :=
  (t.corr.cast_dupif).map fun c => ⟨c, t.mall.cast_dupif⟩

/-- Modelled from the spec: Verify cast on full types. -/
def cast_verify (t : MSType) : Option MSType :=
  (t.corr.cast_verify).map fun c => ⟨c, t.mall.cast_verify⟩

/-- Modelled from the spec: NonZero cast on full types. -/
def cast_nonzero (t : MSType) : Option MSType :=
  (t.corr.cast_nonzero).map fun c => ⟨c, t.mall.cast_nonzero⟩

/-- Modelled from the spec: ZeroNotEqual cast on full types. -/
def cast_zeronotequal (t : MSType) : Option MSType :=
  (t.corr.cast_zeronotequal).map fun c => ⟨c, t.mall.cast_id⟩

/-- Modelled from the spec: the True cast (and_v with the True terminal). -/
def cast_true (t : MSType) : Option MSType :=
  (Correctness.and_v t.corr Correctness.from_true).map fun c =>
    ⟨c, t.mall.cast_true⟩

/-- Modelled from the spec: the unlikely cast (or_i with False on the
right). -/
def cast_unlikely (t : MSType) : Option MSType :=
  (Correctness.or_i t.corr Correctness.from_false).map fun c =>
    ⟨c, t.mall.cast_or_i_false⟩

/-- Modelled from the spec: the likely cast (or_i with False on the
left). -/
def cast_likely (t : MSType) : Option MSType :=
  (Correctness.or_i Correctness.from_false t.corr).map fun c =>
    ⟨c, t.mall.cast_or_i_false⟩

/-- Modelled from the spec: AndB on full types. -/
def and_b (l r : MSType) : Option MSType :=
  (Correctness.and_b l.corr r.corr).map fun c =>
    ⟨c, Malleability.and_b l.mall r.mall⟩

/-- Modelled from the spec: AndV on full types. -/
def and_v (l r : MSType) : Option MSType :=
  (Correctness.and_v l.corr r.corr).map fun c =>
    ⟨c, Malleability.and_v l.mall r.mall⟩

/-- Modelled from the spec: OrB on full types. -/
def or_b (l r : MSType) : Option MSType :=
  (Correctness.or_b l.corr r.corr).map fun c =>
    ⟨c, Malleability.or_b l.mall r.mall⟩

/-- Modelled from the spec: OrC on full types. -/
def or_c (l r : MSType) : Option MSType :=
  (Correctness.or_c l.corr r.corr).map fun c =>
    ⟨c, Malleability.or_c l.mall r.mall⟩

/-- Modelled from the spec: OrD on full types. -/
def or_d (l r : MSType) : Option MSType :=
  (Correctness.or_d l.corr r.corr).map fun c =>
    ⟨c, Malleability.or_d l.mall r.mall⟩

/-- Modelled from the spec: OrI on full types. -/
def or_i (l r : MSType) : Option MSType :=
  (Correctness.or_i l.corr r.corr).map fun c =>
    ⟨c, Malleability.or_i l.mall r.mall⟩

/-- Modelled from the spec: AndOr on full types. -/
def and_or (a b c : MSType) : Option MSType :=
  (Correctness.and_or a.corr b.corr c.corr).map fun co =>
    ⟨co, Malleability.and_or a.mall b.mall c.mall⟩

/-- Modelled from the spec: Thresh on full types. -/
def threshold (k : Nat) (subs : List MSType) : Option MSType :=
  (Correctness.threshold k (subs.map MSType.corr)).map fun c =>
    ⟨c, Malleability.threshold k (subs.map MSType.mall)⟩

end MSType

/-! ## Extra data (sizing).

Modelled from the spec (§3, §4.3, §6): the extra-data module
(miniscript/types/extra_props) is not in the provided source tree.  We model
the fields the compiler reads: pk_cost (script-byte size, exact per the
encoding rules of §6), has_verify_form (called has_free_verify in §3: the
fragment ends in an opcode with a free VERIFY variant), and the opcode
counts.  The remaining sizing fields listed in §3 (stack element counts,
max satisfaction sizes, timelock info) are not consumed by any claim and are
omitted. -/

/-- Modelled from the spec: the sizing record computed for every node. -/
structure ExtData where
  pk_cost : Nat
  has_verify_form : Bool
  ops_count_static : Nat
  ops_count_sat : Option Nat
  ops_count_nsat : Option Nat
deriving DecidableEq, Repr

/-- Sum of two optional opcode counts; none means the path is impossible. -/
def optAdd : Option Nat → Option Nat → Option Nat
  | some a, some b => some (a + b)
  | _, _ => none

/-- Larger of two optional opcode counts, where none means the path is
impossible (so the other path is taken if available). -/
def optMaxChoice : Option Nat → Option Nat → Option Nat
  | some a, some b => some (max a b)
  | some a, none => some a
  | none, some b => some b
  | none, none => none

/-- Modelled from the spec (§6): byte size of the minimal Script push of a
number (opcode plus payload). -/
def scriptNumSize (n : Nat) : Nat :=
  if n ≤ 16 then 1
  else if n ≤ 0x7f then 2
  else if n ≤ 0x7fff then 3
  else if n ≤ 0x7fffff then 4
  else 5

namespace ExtData

/-- Modelled from the spec: sizing of the True terminal (one OP_1 byte,
which is a push and executes no countable opcode). -/
def from_true : ExtData := ⟨1, false, 0, some 0, none⟩

/-- Modelled from the spec: sizing of the False terminal. -/
def from_false : ExtData := ⟨1, false, 0, none, some 0⟩

/-- Modelled from the spec: sizing of the Pk terminal (a 33-byte key push
with its length prefix). -/
def from_pk : ExtData := ⟨34, false, 0, some 0, some 0⟩

/-- Modelled from the spec: sizing of the PkH terminal (DUP HASH160, a
20-byte hash push with prefix, EQUALVERIFY). -/
def from_pk_h : ExtData := ⟨24, false, 3, some 3, some 3⟩

/-- Modelled from the spec: sizing of ThreshM(k, n keys): k push, n key
pushes, n push, CHECKMULTISIG; CHECKMULTISIG dynamically counts the key
number against the opcode limit.  Ends in CHECKMULTISIG, which has a free
VERIFY form. -/
def from_multi (k n : Nat) : ExtData :=
  ⟨scriptNumSize k + 34 * n + scriptNumSize n + 1, true, 1,
    some (1 + n), some (1 + n)⟩

/-- Modelled from the spec: sizing of a 32-byte hash terminal
(SIZE, push 32, EQUALVERIFY, SHA256 or HASH256, 32-byte push, EQUAL).
Ends in EQUAL, which has a free VERIFY form. -/
def from_sha256 : ExtData := ⟨39, true, 4, some 4, some 4⟩

/-- Modelled from the spec: sizing of a 20-byte hash terminal. -/
def from_hash160 : ExtData := ⟨27, true, 4, some 4, some 4⟩

/-- Modelled from the spec: sizing of After and Older (push of the locktime
then the single CLTV or CSV opcode). -/
def from_time (t : Nat) : ExtData :=
  ⟨scriptNumSize t + 1, false, 1, some 1, none⟩

/-- Modelled from the spec: Alt adds TOALTSTACK and FROMALTSTACK. -/
def cast_alt (e : ExtData) : Option ExtData :=
  some ⟨e.pk_cost + 2, false, e.ops_count_static + 2,
    e.ops_count_sat.map (· + 2), e.ops_count_nsat.map (· + 2)⟩

/-- Modelled from the spec: Swap adds one SWAP opcode and keeps the final
opcode of the fragment. -/
def cast_swap (e : ExtData) : Option ExtData :=
  some ⟨e.pk_cost + 1, e.has_verify_form, e.ops_count_static + 1,
    e.ops_count_sat.map (· + 1), e.ops_count_nsat.map (· + 1)⟩

/-- Modelled from the spec: Check adds one CHECKSIG opcode; CHECKSIG has a
free VERIFY form. -/
def cast_check (e : ExtData) : Option ExtData :=
  some ⟨e.pk_cost + 1, true, e.ops_count_static + 1,
    e.ops_count_sat.map (· + 1), e.ops_count_nsat.map (· + 1)⟩

/-- Modelled from the spec: DupIf adds DUP IF ENDIF; a dissatisfaction
skips the body. -/
def cast_dupif (e : ExtData) : Option ExtData :=
  some ⟨e.pk_cost + 3, false, e.ops_count_static + 3,
    e.ops_count_sat.map (· + 3), some (e.ops_count_static + 3)⟩

/-- Modelled from the spec: Verify appends VERIFY unless the fragment ends
in an opcode with a free VERIFY form; the result cannot be dissatisfied. -/
def cast_verify (e : ExtData) : Option ExtData :=
  let extra := if e.has_verify_form then 0 else 1
  some ⟨e.pk_cost + extra, false, e.ops_count_static + extra,
    e.ops_count_sat.map (· + extra), none⟩

/-- Modelled from the spec: NonZero adds SIZE 0NOTEQUAL IF ENDIF. -/
def cast_nonzero (e : ExtData) : Option ExtData :=
  some ⟨e.pk_cost + 4, false, e.ops_count_static + 4,
    e.ops_count_sat.map (· + 4), some (e.ops_count_static + 4)⟩

/-- Modelled from the spec: ZeroNotEqual adds one 0NOTEQUAL opcode. -/
def cast_zeronotequal (e : ExtData) : Option ExtData :=
  some ⟨e.pk_cost + 1, false, e.ops_count_static + 1,
    e.ops_count_sat.map (· + 1), e.ops_count_nsat.map (· + 1)⟩

/-- Modelled from the spec: AndV concatenates; the final opcode is that of
the right child; no dissatisfaction. -/
def and_v (l r : ExtData) : Option ExtData :=
  some ⟨l.pk_cost + r.pk_cost, r.has_verify_form,
    l.ops_count_static + r.ops_count_static,
    optAdd l.ops_count_sat r.ops_count_sat, none⟩

/-- Modelled from the spec: AndB concatenates and adds BOOLAND. -/
def and_b (l r : ExtData) : Option ExtData :=
  some ⟨l.pk_cost + r.pk_cost + 1, false,
    l.ops_count_static + r.ops_count_static + 1,
    (optAdd l.ops_count_sat r.ops_count_sat).map (· + 1),
    (optAdd l.ops_count_nsat r.ops_count_nsat).map (· + 1)⟩

/-- Modelled from the spec: the True cast appends the OP_1 push. -/
def cast_true (e : ExtData) : Option ExtData := and_v e from_true

/-- Modelled from the spec: OrB concatenates and adds BOOLOR; a
satisfaction satisfies one side and dissatisfies the other. -/
def or_b (l r : ExtData) : Option ExtData :=
  some ⟨l.pk_cost + r.pk_cost + 1, false,
    l.ops_count_static + r.ops_count_static + 1,
    (optMaxChoice (optAdd l.ops_count_sat r.ops_count_nsat)
      (optAdd l.ops_count_nsat r.ops_count_sat)).map (· + 1),
    (optAdd l.ops_count_nsat r.ops_count_nsat).map (· + 1)⟩

/-- Modelled from the spec: OrD adds IFDUP NOTIF ENDIF around the right
child; the right child runs only when the left dissatisfies. -/
def or_d (l r : ExtData) : Option ExtData :=
  some ⟨l.pk_cost + r.pk_cost + 3, false,
    l.ops_count_static + r.ops_count_static + 3,
    (optMaxChoice l.ops_count_sat
      (optAdd l.ops_count_nsat r.ops_count_sat)).map (· + 3),
    (optAdd l.ops_count_nsat r.ops_count_nsat).map (· + 3)⟩

/-- Modelled from the spec: OrC adds NOTIF ENDIF around the right child. -/
def or_c (l r : ExtData) : Option ExtData :=
  some ⟨l.pk_cost + r.pk_cost + 2, false,
    l.ops_count_static + r.ops_count_static + 2,
    (optMaxChoice l.ops_count_sat
      (optAdd l.ops_count_nsat r.ops_count_sat)).map (· + 2),
    none⟩

/-- Modelled from the spec: OrI adds IF ELSE ENDIF and a selector push. -/
def or_i (l r : ExtData) : Option ExtData :=
  some ⟨l.pk_cost + r.pk_cost + 3, false,
    l.ops_count_static + r.ops_count_static + 3,
    (optMaxChoice l.ops_count_sat r.ops_count_sat).map (· + 3),
    (optMaxChoice l.ops_count_nsat r.ops_count_nsat).map (· + 3)⟩

/-- Modelled from the spec: the unlikely cast (or_i with False on the
right). -/
def cast_unlikely (e : ExtData) : Option ExtData := or_i e from_false

/-- Modelled from the spec: the likely cast (or_i with False on the
left). -/
def cast_likely (e : ExtData) : Option ExtData := or_i from_false e

/-- Modelled from the spec: AndOr adds NOTIF ELSE ENDIF; a satisfaction
runs either the first two arms or the dissatisfied first and third arm. -/
def and_or (a b c : ExtData) : Option ExtData :=
  some ⟨a.pk_cost + b.pk_cost + c.pk_cost + 3, false,
    a.ops_count_static + b.ops_count_static + c.ops_count_static + 3,
    (optMaxChoice (optAdd a.ops_count_sat b.ops_count_sat)
      (optAdd a.ops_count_nsat c.ops_count_sat)).map (· + 3),
    (optAdd a.ops_count_nsat c.ops_count_nsat).map (· + 3)⟩

/-- Modelled from the spec: Thresh concatenates its subs with ADD between
W children, then pushes k and compares with EQUAL.  The opcode count is
bounded by every sub running either branch, which we over-approximate by
the larger of the sat and dissat counts of each sub. -/
def threshold (k : Nat) (subs : List ExtData) : Option ExtData :=
  let n := subs.length
  some ⟨(subs.map ExtData.pk_cost).sum + scriptNumSize k + 1 + (n - 1),
    true,
    (subs.map ExtData.ops_count_static).sum + n,
    (subs.foldl (fun acc e =>
      optAdd acc (optMaxChoice e.ops_count_sat e.ops_count_nsat))
      (some 0)).map (· + n),
    ((subs.map ExtData.ops_count_nsat).foldl optAdd (some 0)).map (· + n)⟩

end ExtData

/-! ## The Miniscript AST.

The Terminal node type is modelled from the spec (§3 fragment kinds); the
Miniscript wrapper, which carries a node together with its cached type and
extra data, is translated from src/src/miniscript/mod.rs.  Hash payloads and
locktime arguments are modelled as naturals; key and key-hash types are
parameters. -/

mutual

/-- Modelled from the spec: the fragment kinds of §3 (terminals, the seven
wrappers, the binary combinators, AndOr, Thresh and ThreshM).  Children are
whole Miniscript nodes, mirroring the reference-counted typed subtrees of
the implementation. -/
inductive Terminal (Pk PkH : Type) where
  | tTrue : Terminal Pk PkH
  | tFalse : Terminal Pk PkH
  | pk (key : Pk) : Terminal Pk PkH
  | pkH (hash : PkH) : Terminal Pk PkH
  | after (n : Nat) : Terminal Pk PkH
  | older (n : Nat) : Terminal Pk PkH
  | sha256 (h : Nat) : Terminal Pk PkH
  | hash256 (h : Nat) : Terminal Pk PkH
  | ripemd160 (h : Nat) : Terminal Pk PkH
  | hash160 (h : Nat) : Terminal Pk PkH
  | alt (x : Miniscript Pk PkH) : Terminal Pk PkH
  | swap (x : Miniscript Pk PkH) : Terminal Pk PkH
  | check (x : Miniscript Pk PkH) : Terminal Pk PkH
  | dupIf (x : Miniscript Pk PkH) : Terminal Pk PkH
  | verify (x : Miniscript Pk PkH) : Terminal Pk PkH
  | nonZero (x : Miniscript Pk PkH) : Terminal Pk PkH
  | zeroNotEqual (x : Miniscript Pk PkH) : Terminal Pk PkH
  | andV (x y : Miniscript Pk PkH) : Terminal Pk PkH
  | andB (x y : Miniscript Pk PkH) : Terminal Pk PkH
  | andOr (x y z : Miniscript Pk PkH) : Terminal Pk PkH
  | orB (x y : Miniscript Pk PkH) : Terminal Pk PkH
  | orD (x y : Miniscript Pk PkH) : Terminal Pk PkH
  | orC (x y : Miniscript Pk PkH) : Terminal Pk PkH
  | orI (x y : Miniscript Pk PkH) : Terminal Pk PkH
  | thresh (k : Nat) (subs : List (Miniscript Pk PkH)) : Terminal Pk PkH
  | threshM (k : Nat) (keys : List Pk) : Terminal Pk PkH

/-- The top-level script AST type of src/src/miniscript/mod.rs: a node
together with its cached correctness type and extra data. -/
inductive Miniscript (Pk PkH : Type) where
  | mk (node : Terminal Pk PkH) (ty : MSType) (ext : ExtData) :
      Miniscript Pk PkH

end

/-- The AST node of a Miniscript value. -/
def Miniscript.node {Pk PkH : Type} : Miniscript Pk PkH → Terminal Pk PkH
  | .mk n _ _ => n

/-- The cached type of a Miniscript value. -/
def Miniscript.ty {Pk PkH : Type} : Miniscript Pk PkH → MSType
  | .mk _ t _ => t

/-- The cached extra data of a Miniscript value. -/
def Miniscript.ext {Pk PkH : Type} : Miniscript Pk PkH → ExtData
  | .mk _ _ e => e

/-- Modelled from the spec: Type::type_check of the type-system module with
no override function, as the two source files call it: the type of the root
node computed from the cached types of its immediate children. -/
def typeOfTerminal {Pk PkH : Type} : Terminal Pk PkH → Option MSType
  | .tTrue => some MSType.from_true
  | .tFalse => some MSType.from_false
  | .pk _ => some MSType.from_pk
  | .pkH _ => some MSType.from_pk_h
  | .after n => if 0 < n ∧ n < 2 ^ 31 then some MSType.from_time else none
  | .older n => if 0 < n ∧ n < 2 ^ 31 then some MSType.from_time else none
  | .sha256 _ | .hash256 _ | .ripemd160 _ | .hash160 _ =>
      some MSType.from_hash
  | .alt x => MSType.cast_alt x.ty
  | .swap x => MSType.cast_swap x.ty
  | .check x => MSType.cast_check x.ty
  | .dupIf x => MSType.cast_dupif x.ty
  | .verify x => MSType.cast_verify x.ty
  | .nonZero x => MSType.cast_nonzero x.ty
  | .zeroNotEqual x => MSType.cast_zeronotequal x.ty
  | .andV x y => MSType.and_v x.ty y.ty
  | .andB x y => MSType.and_b x.ty y.ty
  | .andOr x y z => MSType.and_or x.ty y.ty z.ty
  | .orB x y => MSType.or_b x.ty y.ty
  | .orD x y => MSType.or_d x.ty y.ty
  | .orC x y => MSType.or_c x.ty y.ty
  | .orI x y => MSType.or_i x.ty y.ty
  | .thresh k subs => MSType.threshold k (subs.map Miniscript.ty)
  | .threshM k keys =>
      if 1 ≤ k ∧ k ≤ keys.length ∧ keys.length ≤ 20 then
        some MSType.from_multi
      else none

/-- Modelled from the spec: ExtData::type_check with no override function:
the sizing data of the root node computed from the cached extra data of its
immediate children. -/
def extOfTerminal {Pk PkH : Type} : Terminal Pk PkH → Option ExtData
  | .tTrue => some ExtData.from_true
  | .tFalse => some ExtData.from_false
  | .pk _ => some ExtData.from_pk
  | .pkH _ => some ExtData.from_pk_h
  | .after n => if 0 < n ∧ n < 2 ^ 31 then some (ExtData.from_time n)
      else none
  | .older n => if 0 < n ∧ n < 2 ^ 31 then some (ExtData.from_time n)
      else none
  | .sha256 _ | .hash256 _ => some ExtData.from_sha256
  | .ripemd160 _ | .hash160 _ => some ExtData.from_hash160
  | .alt x => ExtData.cast_alt x.ext
  | .swap x => ExtData.cast_swap x.ext
  | .check x => ExtData.cast_check x.ext
  | .dupIf x => ExtData.cast_dupif x.ext
  | .verify x => ExtData.cast_verify x.ext
  | .nonZero x => ExtData.cast_nonzero x.ext
  | .zeroNotEqual x => ExtData.cast_zeronotequal x.ext
  | .andV x y => ExtData.and_v x.ext y.ext
  | .andB x y => ExtData.and_b x.ext y.ext
  | .andOr x y z => ExtData.and_or x.ext y.ext z.ext
  | .orB x y => ExtData.or_b x.ext y.ext
  | .orD x y => ExtData.or_d x.ext y.ext
  | .orC x y => ExtData.or_c x.ext y.ext
  | .orI x y => ExtData.or_i x.ext y.ext
  | .thresh k subs => ExtData.threshold k (subs.map Miniscript.ext)
  | .threshM k keys =>
      if 1 ≤ k ∧ k ≤ keys.length ∧ keys.length ≤ 20 then
        some (ExtData.from_multi k keys.length)
      else none

/-- Miniscript::from_ast of src/src/miniscript/mod.rs: attach the computed
type and extra data to a bare AST node, failing on type errors. -/
def Miniscript.from_ast {Pk PkH : Type} (t : Terminal Pk PkH) :
    Option (Miniscript Pk PkH) := do
  let ty ← typeOfTerminal t
  let ext ← extOfTerminal t
  pure (Miniscript.mk t ty ext)

/-! ## Exact rational model of f64.

The compiler computes with f64 probabilities and costs.  Every value on the
executions we reason about is a small dyadic rational that f64 represents
exactly, so finite f64 arithmetic is modelled by exact rational arithmetic.
We use an unnormalized fraction representation (an integer numerator over a
natural denominator) with comparisons by cross multiplication: equality of
Q values is value equality, exactly as equality of the OrdF64 wrapper of
compiler.rs is value equality of the underlying doubles. -/

/-- An exact rational: an unnormalized fraction.  The denominator is zero
only on executions where the Rust code would divide by zero. -/
structure Q where
  num : Int
  den : Nat
deriving DecidableEq, Repr

namespace Q

/-- Embedding of naturals. -/
def ofNat (n : Nat) : Q := ⟨n, 1⟩

instance (n : Nat) : OfNat Q n := ⟨Q.ofNat n⟩

/-- Value equality (the Eq of OrdF64 on finite doubles). -/
def beq (a b : Q) : Bool := a.num * b.den = b.num * a.den

/-- Value order (the f64 order on finite doubles). -/
def ble (a b : Q) : Bool := a.num * b.den ≤ b.num * a.den

/-- Strict value order. -/
def blt (a b : Q) : Bool := a.num * b.den < b.num * a.den

/-- Addition. -/
def add (a b : Q) : Q := ⟨a.num * b.den + b.num * a.den, a.den * b.den⟩

/-- Subtraction. -/
def sub (a b : Q) : Q := ⟨a.num * b.den - b.num * a.den, a.den * b.den⟩

/-- Multiplication. -/
def mul (a b : Q) : Q := ⟨a.num * b.num, a.den * b.den⟩

/-- Division (the divisor is positive on every execution the claims reason
about; a zero or negative divisor would model a f64 division producing a
non-finite or negative-denominator value). -/
def div (a b : Q) : Q :=
  if b.num < 0 then ⟨-(a.num * b.den), a.den * b.num.natAbs⟩
  else ⟨a.num * b.den, a.den * b.num.natAbs⟩

instance : Add Q := ⟨Q.add⟩
instance : Sub Q := ⟨Q.sub⟩
instance : Mul Q := ⟨Q.mul⟩
instance : Div Q := ⟨Q.div⟩

/-- Value equality on optional rationals (Eq of Option of OrdF64). -/
def obeq : Option Q → Option Q → Bool
  | some a, some b => a.beq b
  | none, none => true
  | _, _ => false

end Q

/-! ## The compiler (src/src/policy/compiler.rs).

From here on the definitions are translated from the compiler source file.
OrdF64 keys become Q values (the total order that panics on NaN is the
rational order; NaN never arises because all probabilities come from
integer weight ratios).  A cost that can be f64::INFINITY is an
"Option Q" with none standing for plus infinity. -/

/-- One-dimensional cost values: finite rationals or plus infinity (none),
as produced by AstElemExt::cost_1d. -/
abbrev Cost := Option Q

/-- The f64 "less or equal" on cost values; infinity compares equal to
itself, so none is at most none. -/
def costLe : Cost → Cost → Bool
  | some a, some b => a.ble b
  | some _, none => true
  | none, some _ => false
  | none, none => true

/-- Addition of cost values. -/
def costAdd : Cost → Cost → Cost
  | some a, some b => some (a + b)
  | _, _ => none

/-- The exact rational value of f64::MAX, used by the compiler extra data of
the False terminal. -/
def f64MAX : Q := ⟨(Int.ofNat (2 ^ 1024 - 2 ^ 971)), 1⟩

/-- CompilerExtData of compiler.rs: the optional branch probability set by
the parent of a disjunction, the expected satisfaction cost in witness
bytes, and the optional expected dissatisfaction cost (absent exactly when
the fragment cannot be dissatisfied without aborting the script). -/
structure CompilerExtData where
  branch_prob : Option Q
  sat_cost : Q
  dissat_cost : Option Q
deriving DecidableEq, Repr

namespace CompilerExtData

/-- CompilerExtData::from_false: satisfying False costs f64::MAX bytes,
dissatisfying it is free. -/
def from_false : CompilerExtData := ⟨none, f64MAX, some 0⟩

/-- CompilerExtData::from_pk. -/
def from_pk : CompilerExtData := ⟨none, 73, some 1⟩

/-- CompilerExtData::from_pk_h. -/
def from_pk_h : CompilerExtData := ⟨none, 73 + 34, some (1 + 34)⟩

/-- CompilerExtData::from_multi. -/
def from_multi (k : Nat) : CompilerExtData :=
  ⟨none, 1 + 73 * Q.ofNat k, some (Q.ofNat k + 1)⟩

/-- CompilerExtData::from_hash. -/
def from_hash : CompilerExtData := ⟨none, 33, some 33⟩

/-- CompilerExtData::from_time. -/
def from_time : CompilerExtData := ⟨none, 0, none⟩

/-- CompilerExtData::cast_alt. -/
def cast_alt (s : CompilerExtData) : Option CompilerExtData :=
  some ⟨none, s.sat_cost, s.dissat_cost⟩

/-- CompilerExtData::cast_swap. -/
def cast_swap (s : CompilerExtData) : Option CompilerExtData :=
  some ⟨none, s.sat_cost, s.dissat_cost⟩

/-- CompilerExtData::cast_check. -/
def cast_check (s : CompilerExtData) : Option CompilerExtData :=
  some ⟨none, s.sat_cost, s.dissat_cost⟩

/-- CompilerExtData::cast_dupif. -/
def cast_dupif (s : CompilerExtData) : Option CompilerExtData :=
  some ⟨none, 2 + s.sat_cost, some 1⟩

/-- CompilerExtData::cast_verify. -/
def cast_verify (s : CompilerExtData) : Option CompilerExtData :=
  some ⟨none, s.sat_cost, none⟩

/-- CompilerExtData::cast_nonzero. -/
def cast_nonzero (s : CompilerExtData) : Option CompilerExtData :=
  some ⟨none, s.sat_cost, some 1⟩

/-- CompilerExtData::cast_zeronotequal. -/
def cast_zeronotequal (s : CompilerExtData) : Option CompilerExtData :=
  some ⟨none, s.sat_cost, s.dissat_cost⟩

/-- CompilerExtData::cast_true. -/
def cast_true (s : CompilerExtData) : Option CompilerExtData :=
  some ⟨none, s.sat_cost, none⟩

/-- CompilerExtData::cast_unlikely. -/
def cast_unlikely (s : CompilerExtData) : Option CompilerExtData :=
  some ⟨none, 2 + s.sat_cost, some 1⟩

/-- CompilerExtData::cast_likely. -/
def cast_likely (s : CompilerExtData) : Option CompilerExtData :=
  some ⟨none, 1 + s.sat_cost, some 2⟩

/-- CompilerExtData::and_b.  Rust panics that cannot occur on the paths the
compiler takes (missing branch probabilities, missing dissatisfaction
costs at unwrap sites) are modelled by none, which makes the enclosing
candidate construction fail. -/
def and_b (l r : CompilerExtData) : Option CompilerExtData :=
  some ⟨none, l.sat_cost + r.sat_cost,
    match l.dissat_cost, r.dissat_cost with
    | some a, some b => some (a + b)
    | _, _ => none⟩

/-- CompilerExtData::and_v. -/
def and_v (l r : CompilerExtData) : Option CompilerExtData :=
  some ⟨none, l.sat_cost + r.sat_cost, none⟩

/-- CompilerExtData::or_b. -/
def or_b (l r : CompilerExtData) : Option CompilerExtData := do
  let lprob ← l.branch_prob
  let rprob ← r.branch_prob
  let ldis ← l.dissat_cost
  let rdis ← r.dissat_cost
  some ⟨none,
    lprob * (l.sat_cost + rdis) + rprob * (r.sat_cost + ldis),
    some (ldis + rdis)⟩

/-- CompilerExtData::or_d. -/
def or_d (l r : CompilerExtData) : Option CompilerExtData := do
  let lprob ← l.branch_prob
  let rprob ← r.branch_prob
  let ldis ← l.dissat_cost
  some ⟨none,
    lprob * l.sat_cost + rprob * (r.sat_cost + ldis),
    r.dissat_cost.map fun rd => ldis + rd⟩

/-- CompilerExtData::or_c. -/
def or_c (l r : CompilerExtData) : Option CompilerExtData := do
  let lprob ← l.branch_prob
  let rprob ← r.branch_prob
  let ldis ← l.dissat_cost
  some ⟨none, lprob * l.sat_cost + rprob * (r.sat_cost + ldis), none⟩

/-- CompilerExtData::or_i. -/
def or_i (l r : CompilerExtData) : Option CompilerExtData := do
  let lprob ← l.branch_prob
  let rprob ← r.branch_prob
  some ⟨none,
    lprob * (2 + l.sat_cost) + rprob * (1 + r.sat_cost),
    match l.dissat_cost, r.dissat_cost with
    | some ldis, some rdis =>
        if Q.blt (1 + rdis) (2 + ldis) then some (1 + rdis) else some (2 + ldis)
    | some ldis, none => some (2 + ldis)
    | none, some rdis => some (1 + rdis)
    | none, none => none⟩

/-- CompilerExtData::and_or; fails when the first arm is not
dissatisfiable. -/
def and_or (a b c : CompilerExtData) : Option CompilerExtData := do
  let adis ← a.dissat_cost
  let aprob ← a.branch_prob
  let _bprob ← b.branch_prob
  let cprob ← c.branch_prob
  some ⟨none,
    aprob * (a.sat_cost + b.sat_cost) + cprob * (adis + c.sat_cost),
    match c.dissat_cost with
    | some cdis => some (adis + cdis)
    | none => none⟩

/-- CompilerExtData::threshold: sums the sat and dissat costs of the subs
and weighs them by k over n. -/
def threshold (k n : Nat) (sub_ck : Nat → Option CompilerExtData) :
    Option CompilerExtData := do
  let k_over_n : Q := Q.ofNat k / Q.ofNat n
  let subs ← (List.range n).mapM sub_ck
  let sat_cost := (subs.map CompilerExtData.sat_cost).sum
  let dissat_list ← (subs.map CompilerExtData.dissat_cost).mapM id
  let dissat_cost := dissat_list.sum
  some ⟨none, sat_cost * k_over_n + dissat_cost * (1 - k_over_n),
    some dissat_cost⟩

end CompilerExtData

/-- CompilerExtData::type_check of the Property trait, as the compiler
invokes it: compute the compiler extra data of a root node, taking the
children data from the supplied lookup (the compiler caches them in
AstElemExt values).  Terminal::True is unreachable here in the source
(from_true is never computed directly) and yields none. -/
def compOfTerminal {Pk PkH : Type}
    (lookup : Nat → Option CompilerExtData) :
    Terminal Pk PkH → Option CompilerExtData
  | .tTrue => none
  | .tFalse => some .from_false
  | .pk _ => some .from_pk
  | .pkH _ => some .from_pk_h
  | .after _ | .older _ => some .from_time
  | .sha256 _ | .hash256 _ | .ripemd160 _ | .hash160 _ =>
      some .from_hash
  | .alt _ => do CompilerExtData.cast_alt (← lookup 0)
  | .swap _ => do CompilerExtData.cast_swap (← lookup 0)
  | .check _ => do CompilerExtData.cast_check (← lookup 0)
  | .dupIf _ => do CompilerExtData.cast_dupif (← lookup 0)
  | .verify _ => do CompilerExtData.cast_verify (← lookup 0)
  | .nonZero _ => do CompilerExtData.cast_nonzero (← lookup 0)
  | .zeroNotEqual _ => do CompilerExtData.cast_zeronotequal (← lookup 0)
  | .andV _ _ => do CompilerExtData.and_v (← lookup 0) (← lookup 1)
  | .andB _ _ => do CompilerExtData.and_b (← lookup 0) (← lookup 1)
  | .andOr _ _ _ => do
      CompilerExtData.and_or (← lookup 0) (← lookup 1) (← lookup 2)
  | .orB _ _ => do CompilerExtData.or_b (← lookup 0) (← lookup 1)
  | .orD _ _ => do CompilerExtData.or_d (← lookup 0) (← lookup 1)
  | .orC _ _ => do CompilerExtData.or_c (← lookup 0) (← lookup 1)
  | .orI _ _ => do CompilerExtData.or_i (← lookup 0) (← lookup 1)
  | .thresh k subs => CompilerExtData.threshold k subs.length lookup
  | .threshM k _ => some (CompilerExtData.from_multi k)

/-- CompilationKey of compiler.rs: the Pareto cell of a candidate. -/
structure CompilationKey where
  ty : MSType
  expensive_verify : Bool
  dissat_prob : Option Q
deriving DecidableEq, Repr

namespace CompilationKey

/-- CompilationKey::is_subtype: subtype on the type, equality on the other
attributes. -/
def is_subtype (a b : CompilationKey) : Bool :=
  a.ty.is_subtype b.ty && decide (a.expensive_verify = b.expensive_verify)
    && Q.obeq a.dissat_prob b.dissat_prob

/-- CompilationKey::from_type. -/
def from_type (ty : MSType) (expensive_verify : Bool)
    (dissat_prob : Option Q) : CompilationKey :=
  ⟨ty, expensive_verify, dissat_prob⟩

end CompilationKey

/-- AstElemExt of compiler.rs: a typed Miniscript fragment together with
its compiler extra data. -/
structure AstElemExt (Pk PkH : Type) where
  ms : Miniscript Pk PkH
  comp_ext_data : CompilerExtData

variable {Pk PkH : Type}

/-- AstElemExt::cost_1d: the one-dimensional cost
pk_cost + sat_cost · sat_prob + dissatisfaction term; the term is infinite
when a dissatisfaction probability is supplied but the fragment has no
dissatisfaction cost. -/
def AstElemExt.cost_1d (e : AstElemExt Pk PkH) (sat_prob : Q)
    (dissat_prob : Option Q) : Cost :=
  costAdd
    (some (Q.ofNat e.ms.ext.pk_cost + e.comp_ext_data.sat_cost * sat_prob))
    (match dissat_prob, e.comp_ext_data.dissat_cost with
      | some prob, some cost => some (prob * cost)
      | some _, none => none
      | none, some _ => some 0
      | none, none => some 0)

/-- AstElemExt::terminal: build an extended fragment for a leaf; the Rust
code unwraps, so failure here models a panic and is propagated by the
callers as CFail.stuck. -/
def AstElemExt.terminal (ast : Terminal Pk PkH) :
    Option (AstElemExt Pk PkH) := do
  let comp ← compOfTerminal (fun _ => none) ast
  let ms ← Miniscript.from_ast ast
  pure ⟨ms, comp⟩

/-- AstElemExt::binary: type-check a binary fragment, taking the children
compiler data from the two extended children. -/
def AstElemExt.binary (ast : Terminal Pk PkH)
    (l r : AstElemExt Pk PkH) : Option (AstElemExt Pk PkH) := do
  let lookup_ext : Nat → Option CompilerExtData := fun n =>
    match n with
    | 0 => some l.comp_ext_data
    | 1 => some r.comp_ext_data
    | _ => none
  let ty ← typeOfTerminal ast
  let ext ← extOfTerminal ast
  let comp ← compOfTerminal lookup_ext ast
  pure ⟨Miniscript.mk ast ty ext, comp⟩

/-- AstElemExt::ternary. -/
def AstElemExt.ternary (ast : Terminal Pk PkH)
    (a b c : AstElemExt Pk PkH) : Option (AstElemExt Pk PkH) := do
  let lookup_ext : Nat → Option CompilerExtData := fun n =>
    match n with
    | 0 => some a.comp_ext_data
    | 1 => some b.comp_ext_data
    | 2 => some c.comp_ext_data
    | _ => none
  let ty ← typeOfTerminal ast
  let ext ← extOfTerminal ast
  let comp ← compOfTerminal lookup_ext ast
  pure ⟨Miniscript.mk ast ty ext, comp⟩

/-- Cast of compiler.rs: one wrapper applied on the node, the type, the
extra data and the compiler extra data. -/
structure Cast (Pk PkH : Type) where
  node : Miniscript Pk PkH → Terminal Pk PkH
  ast_type : MSType → Option MSType
  ext_data : ExtData → Option ExtData
  comp_ext_data : CompilerExtData → Option CompilerExtData

/-- Cast::cast: apply the wrapper to an extended fragment; fails when any
of the component casts is invalid for the fragment type. -/
def Cast.cast (c : Cast Pk PkH) (ast : AstElemExt Pk PkH) :
    Option (AstElemExt Pk PkH) := do
  let ty ← c.ast_type ast.ms.ty
  let ext ← c.ext_data ast.ms.ext
  pure ⟨Miniscript.mk (c.node ast.ms) ty ext,
    ← c.comp_ext_data ast.comp_ext_data⟩

/-- The False Miniscript used by the likely and unlikely casts; its
construction in Rust always succeeds. -/
def falseMs : Miniscript Pk PkH :=
  Miniscript.mk .tFalse MSType.from_false ExtData.from_false

/-- The True Miniscript used by the True cast. -/
def trueMs : Miniscript Pk PkH :=
  Miniscript.mk .tTrue MSType.from_true ExtData.from_true

/-- all_casts of compiler.rs, in source order: Check, DupIf, likely
(OrI with False left), unlikely (OrI with False right), Verify, NonZero,
True (AndV with True), Swap, Alt, ZeroNotEqual. -/
def all_casts : List (Cast Pk PkH) :=
  [⟨Terminal.check, MSType.cast_check, ExtData.cast_check,
      CompilerExtData.cast_check⟩,
   ⟨Terminal.dupIf, MSType.cast_dupif, ExtData.cast_dupif,
      CompilerExtData.cast_dupif⟩,
   ⟨fun ms => Terminal.orI falseMs ms, MSType.cast_likely,
      ExtData.cast_likely, CompilerExtData.cast_likely⟩,
   ⟨fun ms => Terminal.orI ms falseMs, MSType.cast_unlikely,
      ExtData.cast_unlikely, CompilerExtData.cast_unlikely⟩,
   ⟨Terminal.verify, MSType.cast_verify, ExtData.cast_verify,
      CompilerExtData.cast_verify⟩,
   ⟨Terminal.nonZero, MSType.cast_nonzero, ExtData.cast_nonzero,
      CompilerExtData.cast_nonzero⟩,
   ⟨fun ms => Terminal.andV ms trueMs, MSType.cast_true,
      ExtData.cast_true, CompilerExtData.cast_true⟩,
   ⟨Terminal.swap, MSType.cast_swap, ExtData.cast_swap,
      CompilerExtData.cast_swap⟩,
   ⟨Terminal.alt, MSType.cast_alt, ExtData.cast_alt,
      CompilerExtData.cast_alt⟩,
   ⟨Terminal.zeroNotEqual, MSType.cast_zeronotequal,
      ExtData.cast_zeronotequal, CompilerExtData.cast_zeronotequal⟩]

/-- A candidate map: the HashMap from compilation keys to extended
fragments, modelled as an association list in insertion order. -/
abbrev CandMap (Pk PkH : Type) := List (CompilationKey × AstElemExt Pk PkH)

/-- Key equality of the candidate HashMap (OrdF64 components compare by
value). -/
def CompilationKey.beq (a b : CompilationKey) : Bool :=
  decide (a.ty = b.ty) && decide (a.expensive_verify = b.expensive_verify)
    && Q.obeq a.dissat_prob b.dissat_prob

/-- Insertion into the association list: replaces the entry with an equal
key, appends otherwise (HashMap::insert). -/
def mapInsert (m : CandMap Pk PkH) (k : CompilationKey)
    (v : AstElemExt Pk PkH) : CandMap Pk PkH :=
  if m.any fun kv => kv.1.beq k then
    m.map fun kv => if kv.1.beq k then (k, v) else kv
  else m ++ [(k, v)]

/-- MAX_OPS_PER_SCRIPT of the types module: the Script opcode limit. -/
def MAX_OPS_PER_SCRIPT : Nat := 201

/-- insert_elem of compiler.rs: reject malleable or opcode-exceeding
candidates; otherwise insert with Pareto filtering by the subtype relation
on compilation keys, returning the new map and whether the element was
inserted (so that its cast closure must be processed). -/
def insert_elem (m : CandMap Pk PkH) (elem : AstElemExt Pk PkH)
    (sat_prob : Q) (dissat_prob : Option Q) :
    CandMap Pk PkH × Bool :=
  if !elem.ms.ty.mall.non_malleable then (m, false)
  else if (match elem.ms.ext.ops_count_sat with
            | some op_count => decide (op_count > MAX_OPS_PER_SCRIPT)
            | none => false) then (m, false)
  else
    let elem_cost := elem.cost_1d sat_prob dissat_prob
    let elem_key := CompilationKey.from_type elem.ms.ty
      elem.ms.ext.has_verify_form dissat_prob
    let is_worse := m.any fun kv =>
      kv.1.is_subtype elem_key &&
        costLe (kv.2.cost_1d sat_prob dissat_prob) elem_cost
    if !is_worse then
      let retained := m.filter fun kv =>
        !(elem_key.is_subtype kv.1 &&
          costLe elem_cost (kv.2.cost_1d sat_prob dissat_prob))
      (mapInsert retained elem_key elem, !is_worse)
    else (m, !is_worse)

/-- insert_elem_closure of compiler.rs, one work-queue step: try all ten
casts on the element popped from the queue, inserting each successful cast
and collecting the inserted ones for further processing. -/
def closureStep (m : CandMap Pk PkH) (current : AstElemExt Pk PkH)
    (sat_prob : Q) (dissat_prob : Option Q) :
    CandMap Pk PkH × List (AstElemExt Pk PkH) :=
  all_casts.foldl
    (fun acc c =>
      match c.cast current with
      | some new_ext =>
          let step := insert_elem acc.1 new_ext sat_prob dissat_prob
          (step.1, if step.2 then acc.2 ++ [new_ext] else acc.2)
      | none => acc)
    (m, [])

/-- The while loop of insert_elem_closure, with fuel; none models fuel
exhaustion (the Rust loop always terminates, see §4.5 of the spec). -/
def closureLoop : Nat → CandMap Pk PkH → List (AstElemExt Pk PkH) →
    Q → Option Q → Option (CandMap Pk PkH)
  | _, m, [], _, _ => some m
  | 0, _, _ :: _, _, _ => none
  | fuel + 1, m, current :: rest, sat_prob, dissat_prob =>
      let step := closureStep m current sat_prob dissat_prob
      closureLoop fuel step.1 (rest ++ step.2) sat_prob dissat_prob

/-- insert_elem_closure of compiler.rs: insert an element and then the
transitive closure of its casts under Pareto filtering. -/
def insert_elem_closure (fuel : Nat) (m : CandMap Pk PkH)
    (astelem_ext : AstElemExt Pk PkH) (sat_prob : Q)
    (dissat_prob : Option Q) : Option (CandMap Pk PkH) :=
  let step := insert_elem m astelem_ext sat_prob dissat_prob
  closureLoop fuel step.1 (if step.2 then [astelem_ext] else [])
    sat_prob dissat_prob

/-- Modelled from the spec: the concrete policy language of §3 (weights are
positive integers normalized to probabilities by the compiler; the source
Concrete type lives in the policy module outside the provided tree). -/
inductive Concrete (Pk : Type) where
  | key (k : Pk) : Concrete Pk
  | after (n : Nat) : Concrete Pk
  | older (n : Nat) : Concrete Pk
  | sha256 (h : Nat) : Concrete Pk
  | hash256 (h : Nat) : Concrete Pk
  | ripemd160 (h : Nat) : Concrete Pk
  | hash160 (h : Nat) : Concrete Pk
  | and (subs : List (Concrete Pk)) : Concrete Pk
  | or (subs : List (Nat × Concrete Pk)) : Concrete Pk
  | threshold (k : Nat) (subs : List (Concrete Pk)) : Concrete Pk

mutual

/-- Structural equality of concrete policies, used as the memoization-cache
key comparison ("the cache key must capture policy value equality",
spec §9). -/
def cbeq {Pk : Type} [DecidableEq Pk] : Concrete Pk → Concrete Pk → Bool
  | .key a, .key b => a = b
  | .after a, .after b => a = b
  | .older a, .older b => a = b
  | .sha256 a, .sha256 b => a = b
  | .hash256 a, .hash256 b => a = b
  | .ripemd160 a, .ripemd160 b => a = b
  | .hash160 a, .hash160 b => a = b
  | .and xs, .and ys => cbeqList xs ys
  | .or xs, .or ys => cbeqWList xs ys
  | .threshold k xs, .threshold k2 ys => k = k2 && cbeqList xs ys
  | _, _ => false

/-- Equality of policy lists. -/
def cbeqList {Pk : Type} [DecidableEq Pk] :
    List (Concrete Pk) → List (Concrete Pk) → Bool
  | [], [] => true
  | x :: xs, y :: ys => cbeq x y && cbeqList xs ys
  | _, _ => false

/-- Equality of weighted policy lists. -/
def cbeqWList {Pk : Type} [DecidableEq Pk] :
    List (Nat × Concrete Pk) → List (Nat × Concrete Pk) → Bool
  | [], [] => true
  | (w, x) :: xs, (w2, y) :: ys => w = w2 && cbeq x y && cbeqWList xs ys
  | _, _ => false

end

/-- CompilerError of compiler.rs: the three public failures of the
compiler. -/
inductive CompilerError where
  | topLevelNonSafe
  | impossibleNonMalleableCompilation
  | maxOpCountExceeded
deriving DecidableEq, Repr

/-- Failures of the model: either a CompilerError of the source code, or
stuck, which stands for fuel exhaustion of the model as well as for every
Rust panic / unreachable. -/
inductive CFail where
  | cerr (e : CompilerError)
  | stuck
deriving DecidableEq, Repr

/-- Results of the modelled compiler functions. -/
abbrev CResult (α : Type) := Except CFail α

/-- Lift an optional value, turning its absence into the stuck failure. -/
def orStuck {α : Type} : Option α → CResult α
  | some a => .ok a
  | none => .error .stuck

/-- The memoization cache of best_compilations, keyed by policy value,
satisfaction probability and optional dissatisfaction probability. -/
abbrev Cache (Pk PkH : Type) :=
  List ((Concrete Pk × Q × Option Q) × CandMap Pk PkH)

/-- Cache lookup by policy value equality and probabilities. -/
def cacheFind [DecidableEq Pk] (cache : Cache Pk PkH)
    (policy : Concrete Pk) (sat_prob : Q) (dissat_prob : Option Q) :
    Option (CandMap Pk PkH) :=
  (cache.find? fun kv =>
    cbeq kv.1.1 policy && Q.beq kv.1.2.1 sat_prob &&
      Q.obeq kv.1.2.2 dissat_prob).map Prod.snd

/-- A non-finite-aware value of an f64 subtraction, needed for the
expression-cost comparison in the Threshold branch (infinity minus
infinity is NaN, and every comparison with NaN is false). -/
inductive F64V where
  | fin (q : Q)
  | pinf
  | ninf
  | nan
deriving DecidableEq, Repr

/-- Subtraction of two cost values as f64 computes it. -/
def costSub : Cost → Cost → F64V
  | some a, some b => .fin (a - b)
  | some _, none => .ninf
  | none, some _ => .pinf
  | none, none => .nan

/-- The f64 strict "less than" on subtraction results. -/
def fltF : F64V → F64V → Bool
  | .fin a, .fin b => a.blt b
  | .fin _, .pinf => true
  | .ninf, .fin _ => true
  | .ninf, .pinf => true
  | _, _ => false

/-- The f64 strict "less than" on cost values. -/
def costLt (a b : Cost) : Bool := costLe a b && !costLe b a

/-- Iterator::min_by_key over candidate values keyed by their
one-dimensional cost: the first minimum wins. -/
def minByCost (l : List (AstElemExt Pk PkH)) (sat_prob : Q)
    (dissat_prob : Option Q) : Option (AstElemExt Pk PkH) :=
  l.foldl
    (fun acc v =>
      match acc with
      | none => some v
      | some cur =>
          if costLt (v.cost_1d sat_prob dissat_prob)
              (cur.cost_1d sat_prob dissat_prob) then some v
          else some cur)
    none

/-- The pairs scanned by compile_binary: every value of the left map with
every value of the right map, in map order. -/
def binPairs (l r : CandMap Pk PkH) :
    List (AstElemExt Pk PkH × AstElemExt Pk PkH) :=
  (l.map Prod.snd).flatMap fun lv => (r.map Prod.snd).map fun rv => (lv, rv)

/-- The triples scanned by compile_tern. -/
def ternTriples (a b c : CandMap Pk PkH) :
    List (AstElemExt Pk PkH × AstElemExt Pk PkH × AstElemExt Pk PkH) :=
  (a.map Prod.snd).flatMap fun av =>
    (b.map Prod.snd).flatMap fun bv =>
      (c.map Prod.snd).map fun cv => (av, bv, cv)

variable [DecidableEq Pk] (toHash : Pk → PkH)


/-- The reading of the mutual recursion of compiler.rs
(best_compilations, insert_best_wrapped and the helper loops) as a
fuel-indexed bundle: the fields at fuel f+1 call the fields of the bundle
at fuel f, and at fuel 0 every pending computation is stuck.  The bundle is
iterated with the primitive recursor on the fuel so that compilations can
be evaluated inside the kernel. -/
structure CompilerStep (Pk PkH : Type) where
  bC : Cache Pk PkH → Concrete Pk → Q → Option Q →
    CResult (CandMap Pk PkH × Cache Pk PkH)
  iBW : Cache Pk PkH → Concrete Pk → CandMap Pk PkH → AstElemExt Pk PkH →
    Q → Option Q → CResult (CandMap Pk PkH × Cache Pk PkH)
  cIter : Cache Pk PkH → Concrete Pk → CandMap Pk PkH →
    List (Cast Pk PkH) → Q → Option Q →
    CResult (CandMap Pk PkH × Cache Pk PkH)
  cBin : Cache Pk PkH → Concrete Pk → CandMap Pk PkH →
    List (AstElemExt Pk PkH × AstElemExt Pk PkH) → Q → Q → Q → Option Q →
    (Miniscript Pk PkH → Miniscript Pk PkH → Terminal Pk PkH) →
    CResult (CandMap Pk PkH × Cache Pk PkH)
  cTern : Cache Pk PkH → Concrete Pk → CandMap Pk PkH →
    List (AstElemExt Pk PkH × AstElemExt Pk PkH × AstElemExt Pk PkH) →
    Q → Q → Q → Option Q → CResult (CandMap Pk PkH × Cache Pk PkH)
  bE : Cache Pk PkH → Concrete Pk → Q → Option Q →
    CResult (AstElemExt Pk PkH × Cache Pk PkH)
  bW : Cache Pk PkH → Concrete Pk → Q → Option Q →
    CResult (AstElemExt Pk PkH × Cache Pk PkH)
  tLoop : Cache Pk PkH → List (Concrete Pk) → Q → Option Q →
    List (CompilerExtData × AstElemExt Pk PkH) →
    List (CompilerExtData × AstElemExt Pk PkH) → Nat → Nat → F64V →
    CResult (List (CompilerExtData × AstElemExt Pk PkH) ×
      List (CompilerExtData × AstElemExt Pk PkH) × Nat × Cache Pk PkH)

/-- The bundle at fuel zero: a loop over an exhausted list is complete,
every other computation is stuck. -/
def stepZero : CompilerStep Pk PkH where
  bC := fun _ _ _ _ => .error .stuck
  iBW := fun _ _ _ _ _ _ => .error .stuck
  cIter := fun cache _ map casts _ _ =>
    match casts with
    | [] => .ok (map, cache)
    | _ :: _ => .error .stuck
  cBin := fun cache _ ret pairs _ _ _ _ _ =>
    match pairs with
    | [] => .ok (ret, cache)
    | _ :: _ => .error .stuck
  cTern := fun cache _ ret triples _ _ _ _ =>
    match triples with
    | [] => .ok (ret, cache)
    | _ :: _ => .error .stuck
  bE := fun _ _ _ _ => .error .stuck
  bW := fun _ _ _ _ => .error .stuck
  tLoop := fun cache subs _ _ best_es best_ws _ min_idx _ =>
    match subs with
    | [] => .ok (best_es, best_ws, min_idx, cache)
    | _ :: _ => .error .stuck

/-- The bundle at fuel f+1, given the bundle prev at fuel f.  Each field is
the body of the corresponding compiler.rs function. -/
def stepSucc (f : Nat) (prev : CompilerStep Pk PkH) :
    CompilerStep Pk PkH where

  -- best_compilations of compiler.rs: the memoized dynamic-programming
  -- recursion producing the Pareto-minimal candidate map of a policy at
  -- the given satisfaction and dissatisfaction probabilities.
  bC := fun cache policy sat_prob dissat_prob =>
    match cacheFind cache policy sat_prob dissat_prob with
    | some ret => .ok (ret, cache)
    | none => do
      let core : CResult (CandMap Pk PkH × Cache Pk PkH) :=
        match policy with
        | .key pk => do
            let e1 ← orStuck (AstElemExt.terminal (Terminal.pkH (toHash pk)))
            let (ret, cache) ← prev.iBW cache policy []
              e1 sat_prob dissat_prob
            let e2 ← orStuck (AstElemExt.terminal (Terminal.pk pk))
            prev.iBW cache policy ret e2 sat_prob
              dissat_prob
        | .after n => do
            let e ← orStuck (AstElemExt.terminal (Terminal.after n))
            prev.iBW cache policy [] e sat_prob
              dissat_prob
        | .older n => do
            let e ← orStuck (AstElemExt.terminal (Terminal.older n))
            prev.iBW cache policy [] e sat_prob
              dissat_prob
        | .sha256 h => do
            let e ← orStuck (AstElemExt.terminal (Terminal.sha256 h))
            prev.iBW cache policy [] e sat_prob
              dissat_prob
        | .hash256 h => do
            let e ← orStuck (AstElemExt.terminal (Terminal.hash256 h))
            prev.iBW cache policy [] e sat_prob
              dissat_prob
        | .ripemd160 h => do
            let e ← orStuck (AstElemExt.terminal (Terminal.ripemd160 h))
            prev.iBW cache policy [] e sat_prob
              dissat_prob
        | .hash160 h => do
            let e ← orStuck (AstElemExt.terminal (Terminal.hash160 h))
            prev.iBW cache policy [] e sat_prob
              dissat_prob
        | .and subs =>
            match subs with
            | [p1, p2] => do
                let (left, cache) ← prev.bC cache p1
                  sat_prob dissat_prob
                let (right, cache) ← prev.bC cache p2
                  sat_prob dissat_prob
                let (q_zero_right, cache) ← prev.bC
                  cache p2 sat_prob none
                let (q_zero_left, cache) ← prev.bC
                  cache p1 sat_prob none
                let (ret, cache) ← prev.cBin cache policy []
                  (binPairs left right) 1 1 sat_prob dissat_prob
                  Terminal.andB
                let (ret, cache) ← prev.cBin cache policy ret
                  (binPairs right left) 1 1 sat_prob dissat_prob
                  Terminal.andB
                let (ret, cache) ← prev.cBin cache policy ret
                  (binPairs left right) 1 1 sat_prob dissat_prob
                  Terminal.andV
                let (ret, cache) ← prev.cBin cache policy ret
                  (binPairs right left) 1 1 sat_prob dissat_prob
                  Terminal.andV
                let fe ← orStuck (AstElemExt.terminal Terminal.tFalse)
                let zero_comp : CandMap Pk PkH :=
                  [(CompilationKey.from_type MSType.from_false
                      ExtData.from_false.has_verify_form dissat_prob, fe)]
                let (ret, cache) ← prev.cTern cache policy ret
                  (ternTriples left q_zero_right zero_comp) 1 0 sat_prob
                  dissat_prob
                prev.cTern cache policy ret
                  (ternTriples right q_zero_left zero_comp) 1 0 sat_prob
                  dissat_prob
            | _ => .error .stuck
        | .or subs => do
            let s0 ← orStuck (subs.get? 0)
            let s1 ← orStuck (subs.get? 1)
            let total : Q := Q.ofNat s0.1 + Q.ofNat s1.1
            let lw : Q := Q.ofNat s0.1 / total
            let rw : Q := Q.ofNat s1.1 / total
            let step1 : CResult (CandMap Pk PkH × Cache Pk PkH) :=
              match s0.2 with
              | .and xs => do
                  let x0 ← orStuck (xs.get? 0)
                  let x1 ← orStuck (xs.get? 1)
                  let (a1, cache) ← prev.bC cache x0
                    (lw * sat_prob)
                    (some (dissat_prob.getD 0 + rw * sat_prob))
                  let (a2, cache) ← prev.bC cache x0
                    (lw * sat_prob) none
                  let (b1, cache) ← prev.bC cache x1
                    (lw * sat_prob)
                    (some (dissat_prob.getD 0 + rw * sat_prob))
                  let (b2, cache) ← prev.bC cache x1
                    (lw * sat_prob) none
                  let (c, cache) ← prev.bC cache s1.2
                    (rw * sat_prob) dissat_prob
                  let (ret, cache) ← prev.cTern cache policy []
                    (ternTriples a1 b2 c) lw rw sat_prob dissat_prob
                  prev.cTern cache policy ret
                    (ternTriples b1 a2 c) lw rw sat_prob dissat_prob
              | _ => .ok (([] : CandMap Pk PkH), cache)
            let (ret, cache) ← step1
            let step2 : CResult (CandMap Pk PkH × Cache Pk PkH) :=
              match s1.2 with
              | .and xs => do
                  let x0 ← orStuck (xs.get? 0)
                  let x1 ← orStuck (xs.get? 1)
                  let (a1, cache) ← prev.bC cache x0
                    (rw * sat_prob)
                    (some (dissat_prob.getD 0 + lw * sat_prob))
                  let (a2, cache) ← prev.bC cache x0
                    (rw * sat_prob) none
                  let (b1, cache) ← prev.bC cache x1
                    (rw * sat_prob)
                    (some (dissat_prob.getD 0 + lw * sat_prob))
                  let (b2, cache) ← prev.bC cache x1
                    (rw * sat_prob) none
                  let (c, cache) ← prev.bC cache s0.2
                    (lw * sat_prob) dissat_prob
                  let (ret, cache) ← prev.cTern cache policy ret
                    (ternTriples a1 b2 c) rw lw sat_prob dissat_prob
                  prev.cTern cache policy ret
                    (ternTriples b1 a2 c) rw lw sat_prob dissat_prob
              | _ => .ok (ret, cache)
            let (ret, cache) ← step2
            let (l0, cache) ← prev.bC cache s0.2
              (lw * sat_prob) (some (dissat_prob.getD 0 + rw * sat_prob))
            let (l1, cache) ← prev.bC cache s0.2
              (lw * sat_prob) (some (rw * sat_prob))
            let (l2, cache) ← prev.bC cache s0.2
              (lw * sat_prob) dissat_prob
            let (l3, cache) ← prev.bC cache s0.2
              (lw * sat_prob) none
            let (r0, cache) ← prev.bC cache s1.2
              (rw * sat_prob) (some (dissat_prob.getD 0 + lw * sat_prob))
            let (r1, cache) ← prev.bC cache s1.2
              (rw * sat_prob) (some (lw * sat_prob))
            let (r2, cache) ← prev.bC cache s1.2
              (rw * sat_prob) dissat_prob
            let (r3, cache) ← prev.bC cache s1.2
              (rw * sat_prob) none
            let (ret, cache) ← prev.cBin cache policy ret
              (binPairs l0 r0) lw rw sat_prob dissat_prob Terminal.orB
            let (ret, cache) ← prev.cBin cache policy ret
              (binPairs r0 l0) rw lw sat_prob dissat_prob Terminal.orB
            let (ret, cache) ← prev.cBin cache policy ret
              (binPairs l0 r2) lw rw sat_prob dissat_prob Terminal.orD
            let (ret, cache) ← prev.cBin cache policy ret
              (binPairs r0 l2) rw lw sat_prob dissat_prob Terminal.orD
            let (ret, cache) ← prev.cBin cache policy ret
              (binPairs l1 r3) lw rw sat_prob dissat_prob Terminal.orC
            let (ret, cache) ← prev.cBin cache policy ret
              (binPairs r1 l3) rw lw sat_prob dissat_prob Terminal.orC
            let (ret, cache) ← prev.cBin cache policy ret
              (binPairs l2 r3) lw rw sat_prob dissat_prob Terminal.orI
            let (ret, cache) ← prev.cBin cache policy ret
              (binPairs r2 l3) rw lw sat_prob dissat_prob Terminal.orI
            let (ret, cache) ← prev.cBin cache policy ret
              (binPairs l3 r2) lw rw sat_prob dissat_prob Terminal.orI
            prev.cBin cache policy ret
              (binPairs r3 l2) rw lw sat_prob dissat_prob Terminal.orI
        | .threshold k subs => do
            let n := subs.length
            let k_over_n : Q := Q.ofNat k / Q.ofNat n
            let sp_each := sat_prob * k_over_n
            let dp_each :=
              some (dissat_prob.getD 0 + (1 - k_over_n) * sat_prob)
            let (best_es, best_ws, min_idx, cache) ← prev.tLoop
              cache subs sp_each dp_each [] [] 0 0 F64V.pinf
            let e_pair ← orStuck (best_es.get? min_idx)
            let sub_ext_data := [e_pair.1] ++
              ((List.range n).filterMap fun i =>
                if i ≠ min_idx then (best_ws.get? i).map Prod.fst else none)
            let sub_ast := [e_pair.2.ms] ++
              ((List.range n).filterMap fun i =>
                if i ≠ min_idx then (best_ws.get? i).map fun p => p.2.ms
                else none)
            let ms0 ← orStuck (Miniscript.from_ast (Terminal.thresh k
              sub_ast))
            let comp0 ← orStuck (CompilerExtData.threshold k n
              fun i => sub_ext_data.get? i)
            let (ret, cache) ← prev.iBW cache policy []
              ⟨ms0, comp0⟩ sat_prob dissat_prob
            let key_vec := subs.filterMap fun s =>
              match s with
              | .key pk => some pk
              | _ => none
            if key_vec.length = subs.length ∧ subs.length ≤ 20 then do
              let e ← orStuck (AstElemExt.terminal
                (Terminal.threshM k key_vec))
              prev.iBW cache policy ret e sat_prob
                dissat_prob
            else .ok (ret, cache)
      let (ret, cache) ← core
      if ret.length = 0 then .error (.cerr .maxOpCountExceeded)
      else .ok (ret, ((policy, sat_prob, dissat_prob), ret) :: cache)

  -- insert_best_wrapped of compiler.rs: insert the cast closure of the
  -- candidate; when a dissatisfaction probability is present, additionally cast
  -- every best compilation at dissatisfaction probability None into this map
  -- and close it.
  iBW := fun cache policy map data sat_prob dissat_prob => do
      let map ← orStuck (insert_elem_closure f map data sat_prob
        dissat_prob)
      if dissat_prob.isSome then
        prev.cIter cache policy map all_casts sat_prob dissat_prob
      else .ok (map, cache)

  -- The cast loop inside insert_best_wrapped: for each of the ten casts,
  -- recompute the best compilations at dissatisfaction probability None and
  -- insert the cast closure of each of their values.
  cIter := fun cache policy map casts sat_prob dissat_prob =>
    match casts with
    | [] => .ok (map, cache)
    | c :: rest => do
      let (vals, cache) ← prev.bC cache policy sat_prob
        none
      let map ← (vals.map Prod.snd).foldlM
        (fun m x =>
          match c.cast x with
          | some new_ext =>
              orStuck (insert_elem_closure f m new_ext sat_prob
                dissat_prob)
          | none => pure m)
        map
      prev.cIter cache policy map rest sat_prob dissat_prob

  -- compile_binary of compiler.rs: build every binary combination of the
  -- left and right candidate maps, setting the branch probabilities before
  -- type-checking, and insert each well-typed result with its wrappers.
  cBin := fun cache policy ret pairs w0 w1 sat_prob dissat_prob
      bin_func =>
    match pairs with
    | [] => .ok (ret, cache)
    | (l, r) :: rest => do
      let l2 : AstElemExt Pk PkH :=
        ⟨l.ms, { l.comp_ext_data with branch_prob := some w0 }⟩
      let r2 : AstElemExt Pk PkH :=
        ⟨r.ms, { r.comp_ext_data with branch_prob := some w1 }⟩
      match AstElemExt.binary (bin_func l.ms r.ms) l2 r2 with
      | some new_ext => do
          let (ret, cache) ← prev.iBW cache policy ret
            new_ext sat_prob dissat_prob
          prev.cBin cache policy ret rest w0 w1 sat_prob
            dissat_prob bin_func
      | none =>
          prev.cBin cache policy ret rest w0 w1 sat_prob
            dissat_prob bin_func

  -- compile_tern of compiler.rs: build every AndOr combination of the
  -- three candidate maps; the first two arms share the first weight.
  cTern := fun cache policy ret triples w0 w1 sat_prob dissat_prob =>
    match triples with
    | [] => .ok (ret, cache)
    | (a, b, c) :: rest => do
      let a2 : AstElemExt Pk PkH :=
        ⟨a.ms, { a.comp_ext_data with branch_prob := some w0 }⟩
      let b2 : AstElemExt Pk PkH :=
        ⟨b.ms, { b.comp_ext_data with branch_prob := some w0 }⟩
      let c2 : AstElemExt Pk PkH :=
        ⟨c.ms, { c.comp_ext_data with branch_prob := some w1 }⟩
      match AstElemExt.ternary (Terminal.andOr a.ms b.ms c.ms) a2 b2 c2 with
      | some new_ext => do
          let (ret, cache) ← prev.iBW cache policy ret
            new_ext sat_prob dissat_prob
          prev.cTern cache policy ret rest w0 w1 sat_prob
            dissat_prob
      | none =>
          prev.cTern cache policy ret rest w0 w1 sat_prob
            dissat_prob

  -- best_e of compiler.rs: the minimum-cost candidate with base B, unit,
  -- unique dissatisfaction and matching dissatisfaction probability.
  bE := fun cache policy sat_prob dissat_prob => do
      let (m, cache) ← prev.bC cache policy sat_prob
        dissat_prob
      let vals := (m.filter fun kv =>
        decide (kv.1.ty.corr.base = .B) && kv.1.ty.corr.unit &&
          decide (kv.2.ms.ty.mall.dissat = .unique) &&
          Q.obeq kv.1.dissat_prob dissat_prob).map Prod.snd
      match minByCost vals sat_prob dissat_prob with
      | some v => .ok (v, cache)
      | none => .error (.cerr .maxOpCountExceeded)

  -- best_w of compiler.rs: as best_e but with base W.
  bW := fun cache policy sat_prob dissat_prob => do
      let (m, cache) ← prev.bC cache policy sat_prob
        dissat_prob
      let vals := (m.filter fun kv =>
        decide (kv.1.ty.corr.base = .W) && kv.1.ty.corr.unit &&
          decide (kv.2.ms.ty.mall.dissat = .unique) &&
          Q.obeq kv.1.dissat_prob dissat_prob).map Prod.snd
      match minByCost vals sat_prob dissat_prob with
      | some v => .ok (v, cache)
      | none => .error (.cerr .maxOpCountExceeded)

  -- The per-sub loop of the Threshold branch of best_compilations: compute
  -- the best E and W expressions of every sub and track the index with the
  -- minimal E-minus-W cost difference (f64 comparison, initial value plus
  -- infinity).
  tLoop := fun cache subs sp_each dp_each best_es best_ws idx min_idx
      min_val =>
    match subs with
    | [] => .ok (best_es, best_ws, min_idx, cache)
    | ast :: rest => do
      let (be, cache) ← prev.bE cache ast sp_each dp_each
      let (bw, cache) ← prev.bW cache ast sp_each dp_each
      let diff := costSub (be.cost_1d sp_each dp_each)
        (bw.cost_1d sp_each dp_each)
      let best_es := best_es ++ [(be.comp_ext_data, be)]
      let best_ws := best_ws ++ [(bw.comp_ext_data, bw)]
      if fltF diff min_val then
        prev.tLoop cache rest sp_each dp_each best_es best_ws
          (idx + 1) idx diff
      else
        prev.tLoop cache rest sp_each dp_each best_es best_ws
          (idx + 1) min_idx min_val


/-- The bundle at the given fuel, by primitive recursion on the fuel. -/
def compilerSteps (fuel : Nat) : CompilerStep Pk PkH :=
  Nat.rec stepZero (fun f prev => stepSucc toHash f prev) fuel

/-- best_compilations of compiler.rs at the given fuel. -/
def best_compilations (fuel : Nat) (cache : Cache Pk PkH)
    (policy : Concrete Pk) (sat_prob : Q) (dissat_prob : Option Q) :
    CResult (CandMap Pk PkH × Cache Pk PkH) :=
  (compilerSteps toHash fuel).bC cache policy sat_prob dissat_prob

/-- insert_best_wrapped of compiler.rs at the given fuel. -/
def insert_best_wrapped (fuel : Nat) (cache : Cache Pk PkH)
    (policy : Concrete Pk) (map : CandMap Pk PkH)
    (data : AstElemExt Pk PkH) (sat_prob : Q) (dissat_prob : Option Q) :
    CResult (CandMap Pk PkH × Cache Pk PkH) :=
  (compilerSteps toHash fuel).iBW cache policy map data sat_prob
    dissat_prob

/-- compile_binary of compiler.rs at the given fuel, over the flattened
list of left-right candidate pairs. -/
def compile_binary (fuel : Nat) (cache : Cache Pk PkH)
    (policy : Concrete Pk) (ret : CandMap Pk PkH)
    (pairs : List (AstElemExt Pk PkH × AstElemExt Pk PkH)) (w0 w1 : Q)
    (sat_prob : Q) (dissat_prob : Option Q)
    (bin_func : Miniscript Pk PkH → Miniscript Pk PkH → Terminal Pk PkH) :
    CResult (CandMap Pk PkH × Cache Pk PkH) :=
  (compilerSteps toHash fuel).cBin cache policy ret pairs w0 w1 sat_prob
    dissat_prob bin_func

/-- compile_tern of compiler.rs at the given fuel, over the flattened list
of candidate triples. -/
def compile_tern (fuel : Nat) (cache : Cache Pk PkH)
    (policy : Concrete Pk) (ret : CandMap Pk PkH)
    (triples : List (AstElemExt Pk PkH × AstElemExt Pk PkH ×
      AstElemExt Pk PkH)) (w0 w1 : Q) (sat_prob : Q)
    (dissat_prob : Option Q) :
    CResult (CandMap Pk PkH × Cache Pk PkH) :=
  (compilerSteps toHash fuel).cTern cache policy ret triples w0 w1
    sat_prob dissat_prob

/-- best_e of compiler.rs at the given fuel. -/
def best_e (fuel : Nat) (cache : Cache Pk PkH) (policy : Concrete Pk)
    (sat_prob : Q) (dissat_prob : Option Q) :
    CResult (AstElemExt Pk PkH × Cache Pk PkH) :=
  (compilerSteps toHash fuel).bE cache policy sat_prob dissat_prob

/-- best_w of compiler.rs at the given fuel. -/
def best_w (fuel : Nat) (cache : Cache Pk PkH) (policy : Concrete Pk)
    (sat_prob : Q) (dissat_prob : Option Q) :
    CResult (AstElemExt Pk PkH × Cache Pk PkH) :=
  (compilerSteps toHash fuel).bW cache policy sat_prob dissat_prob

/-- best_t of compiler.rs: the minimum-cost base-B candidate with the
requested dissatisfaction probability. -/
def best_t [DecidableEq Pk] (toHash : Pk → PkH) (fuel : Nat)
    (cache : Cache Pk PkH) (policy : Concrete Pk) (sat_prob : Q)
    (dissat_prob : Option Q) :
    CResult (AstElemExt Pk PkH × Cache Pk PkH) := do
  let (m, cache) ← best_compilations toHash fuel cache policy sat_prob
    dissat_prob
  let vals := (m.filter fun kv =>
    decide (kv.1.ty.corr.base = .B) &&
      Q.obeq kv.1.dissat_prob dissat_prob).map Prod.snd
  match minByCost vals sat_prob dissat_prob with
  | some v => .ok (v, cache)
  | none => .error (.cerr .maxOpCountExceeded)

/-- best_compilation of compiler.rs: the public entry point.  Compile at
satisfaction probability 1 with no dissatisfaction probability, then
reject unsafe results, then malleable results. -/
def best_compilation [DecidableEq Pk] (toHash : Pk → PkH) (fuel : Nat)
    (policy : Concrete Pk) : CResult (Miniscript Pk PkH) := do
  let (x, _) ← best_t toHash fuel [] policy 1 none
  if !x.ms.ty.mall.safe then
    .error (.cerr .topLevelNonSafe)
  else if !x.ms.ty.mall.non_malleable then
    .error (.cerr .impossibleNonMalleableCompilation)
  else
    .ok x.ms

/-- best_t of compiler.rs: the minimum-cost base-B candidate with the
requested dissatisfaction probability appears further below; first the
remaining definitions of src/src/miniscript/mod.rs. -/
def unitHash : Unit → Unit := fun _ => ()

/-! ## Miniscript::from_str (src/src/miniscript/mod.rs). -/

/-- Modelled from the spec: the failure kinds of the out-of-scope
expression-tree parser and of type checking during parsing (§6: parsed
trees must be type-checked, and the parser API yields an error on any type
violation).  These are distinct from the printability failure raised by
from_str itself. -/
inductive ParseFailure where
  | badExpression
  | typeError
deriving DecidableEq, Repr

/-- The Error cases that from_str produces or propagates: its own
Unprintable gate, the top-level base check, and wrapped failures of the
external parser. -/
inductive MSError where
  | unprintable (ch : Nat)
  | nonTopLevel
  | parseFailure (e : ParseFailure)
deriving DecidableEq, Repr

/-- Miniscript::from_str of src/src/miniscript/mod.rs, over an arbitrary
external expression parser (the parser is an out-of-scope collaborator per
§1 of the spec): reject the first byte below 20 or above 127 as
Unprintable, then parse, then require a base-B type. -/
def from_str (parse : List Nat → Except ParseFailure (Miniscript Pk PkH))
    (s : List Nat) : Except MSError (Miniscript Pk PkH) :=
  match s.find? (fun ch => ch < 20 || ch > 127) with
  | some ch => .error (.unprintable ch)
  | none =>
      match parse s with
      | .error e => .error (.parseFailure e)
      | .ok ms =>
          if ms.ty.corr.base ≠ .B then .error .nonTopLevel else .ok ms

/-- Modelled from the spec: a minimal stand-in for the external expression
parser, used only to run from_str on concrete inputs; it rejects every
input.  The printability gate of from_str, which the claims are about,
runs before the parser and is independent of it. -/
def stubParse : List Nat → Except ParseFailure (Miniscript Unit Unit) :=
  fun _ => .error .badExpression

/-! ## Miniscript::translate_pk (src/src/miniscript/mod.rs). -/

mutual

/-- Miniscript::translate_pk of src/src/miniscript/mod.rs: translate the
keys of the node and reuse the cached type and extra data ("directly
copying the type and ext is safe because translating public key should
not change any properties"). -/
def Miniscript.translate_pk {Pk PkH Qk QkH E : Type}
    (translatefpk : Pk → Except E Qk)
    (translatefpkh : PkH → Except E QkH) :
    Miniscript Pk PkH → Except E (Miniscript Qk QkH)
  | .mk node ty ext => do
      let inner ← Terminal.translate_pk translatefpk translatefpkh node
      pure (Miniscript.mk inner ty ext)

/-- Modelled from the spec: Terminal::translate_pk of the out-of-tree
astelem module: apply the key translation to every key and the key-hash
translation to every key hash, rebuilding the same fragment shape and
translating children through Miniscript::translate_pk. -/
def Terminal.translate_pk {Pk PkH Qk QkH E : Type}
    (translatefpk : Pk → Except E Qk)
    (translatefpkh : PkH → Except E QkH) :
    Terminal Pk PkH → Except E (Terminal Qk QkH)
  | .tTrue => pure .tTrue
  | .tFalse => pure .tFalse
  | .pk key => do pure (.pk (← translatefpk key))
  | .pkH hash => do pure (.pkH (← translatefpkh hash))
  | .after n => pure (.after n)
  | .older n => pure (.older n)
  | .sha256 h => pure (.sha256 h)
  | .hash256 h => pure (.hash256 h)
  | .ripemd160 h => pure (.ripemd160 h)
  | .hash160 h => pure (.hash160 h)
  | .alt x => do pure (.alt (← x.translate_pk translatefpk translatefpkh))
  | .swap x => do pure (.swap (← x.translate_pk translatefpk translatefpkh))
  | .check x => do
      pure (.check (← x.translate_pk translatefpk translatefpkh))
  | .dupIf x => do
      pure (.dupIf (← x.translate_pk translatefpk translatefpkh))
  | .verify x => do
      pure (.verify (← x.translate_pk translatefpk translatefpkh))
  | .nonZero x => do
      pure (.nonZero (← x.translate_pk translatefpk translatefpkh))
  | .zeroNotEqual x => do
      pure (.zeroNotEqual (← x.translate_pk translatefpk translatefpkh))
  | .andV x y => do
      pure (.andV (← x.translate_pk translatefpk translatefpkh)
        (← y.translate_pk translatefpk translatefpkh))
  | .andB x y => do
      pure (.andB (← x.translate_pk translatefpk translatefpkh)
        (← y.translate_pk translatefpk translatefpkh))
  | .andOr x y z => do
      pure (.andOr (← x.translate_pk translatefpk translatefpkh)
        (← y.translate_pk translatefpk translatefpkh)
        (← z.translate_pk translatefpk translatefpkh))
  | .orB x y => do
      pure (.orB (← x.translate_pk translatefpk translatefpkh)
        (← y.translate_pk translatefpk translatefpkh))
  | .orD x y => do
      pure (.orD (← x.translate_pk translatefpk translatefpkh)
        (← y.translate_pk translatefpk translatefpkh))
  | .orC x y => do
      pure (.orC (← x.translate_pk translatefpk translatefpkh)
        (← y.translate_pk translatefpk translatefpkh))
  | .orI x y => do
      pure (.orI (← x.translate_pk translatefpk translatefpkh)
        (← y.translate_pk translatefpk translatefpkh))
  | .thresh k subs => do
      pure (.thresh k
        (← translateMsList translatefpk translatefpkh subs))
  | .threshM k keys => do
      pure (.threshM k (← translateKeyList translatefpk keys))

/-- Translation of a list of child Miniscripts. -/
def translateMsList {Pk PkH Qk QkH E : Type}
    (translatefpk : Pk → Except E Qk)
    (translatefpkh : PkH → Except E QkH) :
    List (Miniscript Pk PkH) → Except E (List (Miniscript Qk QkH))
  | [] => pure []
  | x :: xs => do
      pure ((← x.translate_pk translatefpk translatefpkh) ::
        (← translateMsList translatefpk translatefpkh xs))

/-- Translation of a list of keys. -/
def translateKeyList {Pk E Qk : Type} (translatefpk : Pk → Except E Qk) :
    List Pk → Except E (List Qk)
  | [] => pure []
  | x :: xs => do
      pure ((← translatefpk x) :: (← translateKeyList translatefpk xs))

end

/-! ## Equality and order of Miniscript (src/src/miniscript/mod.rs). -/

mutual

/-- Modelled from the spec: the derived structural equality on Terminal
(the decode module is out of the provided tree); children, being reference
counted Miniscripts, are compared through the Miniscript equality. -/
def Terminal.beqT [DecidableEq Pk] [DecidableEq PkH] :
    Terminal Pk PkH → Terminal Pk PkH → Bool
  | .tTrue, b => match b with | .tTrue => true | _ => false
  | .tFalse, b => match b with | .tFalse => true | _ => false
  | .pk a, b => match b with | .pk a2 => decide (a = a2) | _ => false
  | .pkH a, b => match b with | .pkH a2 => decide (a = a2) | _ => false
  | .after a, b => match b with | .after a2 => decide (a = a2) | _ => false
  | .older a, b => match b with | .older a2 => decide (a = a2) | _ => false
  | .sha256 a, b => match b with | .sha256 a2 => decide (a = a2) | _ => false
  | .hash256 a, b =>
      match b with | .hash256 a2 => decide (a = a2) | _ => false
  | .ripemd160 a, b =>
      match b with | .ripemd160 a2 => decide (a = a2) | _ => false
  | .hash160 a, b =>
      match b with | .hash160 a2 => decide (a = a2) | _ => false
  | .alt x, b => match b with | .alt y => Miniscript.beqM x y | _ => false
  | .swap x, b => match b with | .swap y => Miniscript.beqM x y | _ => false
  | .check x, b =>
      match b with | .check y => Miniscript.beqM x y | _ => false
  | .dupIf x, b =>
      match b with | .dupIf y => Miniscript.beqM x y | _ => false
  | .verify x, b =>
      match b with | .verify y => Miniscript.beqM x y | _ => false
  | .nonZero x, b =>
      match b with | .nonZero y => Miniscript.beqM x y | _ => false
  | .zeroNotEqual x, b =>
      match b with | .zeroNotEqual y => Miniscript.beqM x y | _ => false
  | .andV x y, b =>
      match b with
      | .andV x2 y2 => Miniscript.beqM x x2 && Miniscript.beqM y y2
      | _ => false
  | .andB x y, b =>
      match b with
      | .andB x2 y2 => Miniscript.beqM x x2 && Miniscript.beqM y y2
      | _ => false
  | .andOr x y z, b =>
      match b with
      | .andOr x2 y2 z2 =>
          Miniscript.beqM x x2 && Miniscript.beqM y y2 && Miniscript.beqM z z2
      | _ => false
  | .orB x y, b =>
      match b with
      | .orB x2 y2 => Miniscript.beqM x x2 && Miniscript.beqM y y2
      | _ => false
  | .orD x y, b =>
      match b with
      | .orD x2 y2 => Miniscript.beqM x x2 && Miniscript.beqM y y2
      | _ => false
  | .orC x y, b =>
      match b with
      | .orC x2 y2 => Miniscript.beqM x x2 && Miniscript.beqM y y2
      | _ => false
  | .orI x y, b =>
      match b with
      | .orI x2 y2 => Miniscript.beqM x x2 && Miniscript.beqM y y2
      | _ => false
  | .thresh k s, b =>
      match b with
      | .thresh k2 s2 => decide (k = k2) && beqMsList s s2
      | _ => false
  | .threshM k ks, b =>
      match b with
      | .threshM k2 ks2 => decide (k = k2) && decide (ks = ks2)
      | _ => false

/-- The PartialEq and Eq implementation of Miniscript in
src/src/miniscript/mod.rs: equality of the nodes only, ignoring the cached
type and extra data fields. -/
def Miniscript.beqM [DecidableEq Pk] [DecidableEq PkH] :
    Miniscript Pk PkH → Miniscript Pk PkH → Bool
  | .mk n1 _ _, .mk n2 _ _ => Terminal.beqT n1 n2

/-- Elementwise equality of child lists. -/
def beqMsList [DecidableEq Pk] [DecidableEq PkH] :
    List (Miniscript Pk PkH) → List (Miniscript Pk PkH) → Bool
  | [], [] => true
  | x :: xs, y :: ys => Miniscript.beqM x y && beqMsList xs ys
  | _, _ => false

end


/-- The declaration index of a fragment kind, used by the modelled derived
order on Terminal. -/
def termIdx : Terminal Pk PkH → Nat
  | .tTrue => 0
  | .tFalse => 1
  | .pk _ => 2
  | .pkH _ => 3
  | .after _ => 4
  | .older _ => 5
  | .sha256 _ => 6
  | .hash256 _ => 7
  | .ripemd160 _ => 8
  | .hash160 _ => 9
  | .alt _ => 10
  | .swap _ => 11
  | .check _ => 12
  | .dupIf _ => 13
  | .verify _ => 14
  | .nonZero _ => 15
  | .zeroNotEqual _ => 16
  | .andV _ _ => 17
  | .andB _ _ => 18
  | .andOr _ _ _ => 19
  | .orB _ _ => 20
  | .orD _ _ => 21
  | .orC _ _ => 22
  | .orI _ _ => 23
  | .thresh _ _ => 24
  | .threshM _ _ => 25

variable (cmpPk : Pk → Pk → Ordering) (cmpPkH : PkH → PkH → Ordering)

mutual

/-- Modelled from the spec: the derived total order on Terminal (the
decode module is out of the provided tree): variants compare by
declaration order, equal variants compare their payloads lexicographically,
and children are compared through the Miniscript order. -/
def Terminal.cmp : Terminal Pk PkH → Terminal Pk PkH → Ordering
  | .pk a, b =>
      match b with
      | .pk a2 => cmpPk a a2
      | _ => compare (termIdx (Terminal.pk a : Terminal Pk PkH)) (termIdx b)
  | .pkH a, b =>
      match b with
      | .pkH a2 => cmpPkH a a2
      | _ => compare (termIdx (Terminal.pkH a : Terminal Pk PkH)) (termIdx b)
  | .after a, b =>
      match b with
      | .after a2 => compare a a2
      | _ => compare (termIdx (Terminal.after a : Terminal Pk PkH)) (termIdx b)
  | .older a, b =>
      match b with
      | .older a2 => compare a a2
      | _ => compare (termIdx (Terminal.older a : Terminal Pk PkH)) (termIdx b)
  | .sha256 a, b =>
      match b with
      | .sha256 a2 => compare a a2
      | _ => compare (termIdx (Terminal.sha256 a : Terminal Pk PkH)) (termIdx b)
  | .hash256 a, b =>
      match b with
      | .hash256 a2 => compare a a2
      | _ => compare (termIdx (Terminal.hash256 a : Terminal Pk PkH)) (termIdx b)
  | .ripemd160 a, b =>
      match b with
      | .ripemd160 a2 => compare a a2
      | _ => compare (termIdx (Terminal.ripemd160 a : Terminal Pk PkH)) (termIdx b)
  | .hash160 a, b =>
      match b with
      | .hash160 a2 => compare a a2
      | _ => compare (termIdx (Terminal.hash160 a : Terminal Pk PkH)) (termIdx b)
  | .alt x, b =>
      match b with
      | .alt y => Miniscript.cmp x y
      | _ => compare (termIdx (Terminal.alt x)) (termIdx b)
  | .swap x, b =>
      match b with
      | .swap y => Miniscript.cmp x y
      | _ => compare (termIdx (Terminal.swap x)) (termIdx b)
  | .check x, b =>
      match b with
      | .check y => Miniscript.cmp x y
      | _ => compare (termIdx (Terminal.check x)) (termIdx b)
  | .dupIf x, b =>
      match b with
      | .dupIf y => Miniscript.cmp x y
      | _ => compare (termIdx (Terminal.dupIf x)) (termIdx b)
  | .verify x, b =>
      match b with
      | .verify y => Miniscript.cmp x y
      | _ => compare (termIdx (Terminal.verify x)) (termIdx b)
  | .nonZero x, b =>
      match b with
      | .nonZero y => Miniscript.cmp x y
      | _ => compare (termIdx (Terminal.nonZero x)) (termIdx b)
  | .zeroNotEqual x, b =>
      match b with
      | .zeroNotEqual y => Miniscript.cmp x y
      | _ => compare (termIdx (Terminal.zeroNotEqual x)) (termIdx b)
  | .andV x y, b =>
      match b with
      | .andV x2 y2 => (Miniscript.cmp x x2).then (Miniscript.cmp y y2)
      | _ => compare (termIdx (Terminal.andV x y)) (termIdx b)
  | .andB x y, b =>
      match b with
      | .andB x2 y2 => (Miniscript.cmp x x2).then (Miniscript.cmp y y2)
      | _ => compare (termIdx (Terminal.andB x y)) (termIdx b)
  | .andOr x y z, b =>
      match b with
      | .andOr x2 y2 z2 =>
          ((Miniscript.cmp x x2).then (Miniscript.cmp y y2)).then
            (Miniscript.cmp z z2)
      | _ => compare (termIdx (Terminal.andOr x y z)) (termIdx b)
  | .orB x y, b =>
      match b with
      | .orB x2 y2 => (Miniscript.cmp x x2).then (Miniscript.cmp y y2)
      | _ => compare (termIdx (Terminal.orB x y)) (termIdx b)
  | .orD x y, b =>
      match b with
      | .orD x2 y2 => (Miniscript.cmp x x2).then (Miniscript.cmp y y2)
      | _ => compare (termIdx (Terminal.orD x y)) (termIdx b)
  | .orC x y, b =>
      match b with
      | .orC x2 y2 => (Miniscript.cmp x x2).then (Miniscript.cmp y y2)
      | _ => compare (termIdx (Terminal.orC x y)) (termIdx b)
  | .orI x y, b =>
      match b with
      | .orI x2 y2 => (Miniscript.cmp x x2).then (Miniscript.cmp y y2)
      | _ => compare (termIdx (Terminal.orI x y)) (termIdx b)
  | .thresh k s, b =>
      match b with
      | .thresh k2 s2 => (compare k k2).then (cmpMsList s s2)
      | _ => compare (termIdx (Terminal.thresh k s)) (termIdx b)
  | .threshM k ks, b =>
      match b with
      | .threshM k2 ks2 => (compare k k2).then (cmpKeyList ks ks2)
      | _ => compare (termIdx (Terminal.threshM k ks : Terminal Pk PkH)) (termIdx b)
  | .tTrue, b =>
      match b with
      | .tTrue => .eq
      | _ => compare (termIdx (Terminal.tTrue : Terminal Pk PkH)) (termIdx b)
  | .tFalse, b =>
      match b with
      | .tFalse => .eq
      | _ =>
          compare (termIdx (Terminal.tFalse : Terminal Pk PkH)) (termIdx b)

/-- The Ord implementation of Miniscript in src/src/miniscript/mod.rs:
compare the nodes only, ignoring the cached type and extra data. -/
def Miniscript.cmp : Miniscript Pk PkH → Miniscript Pk PkH → Ordering
  | .mk n1 _ _, .mk n2 _ _ => Terminal.cmp n1 n2

/-- Lexicographic comparison of child lists (derived Ord on Vec). -/
def cmpMsList : List (Miniscript Pk PkH) → List (Miniscript Pk PkH) →
    Ordering
  | [], [] => .eq
  | [], _ :: _ => .lt
  | _ :: _, [] => .gt
  | x :: xs, y :: ys => (Miniscript.cmp x y).then (cmpMsList xs ys)

/-- Lexicographic comparison of key lists (derived Ord on Vec). -/
def cmpKeyList : List Pk → List Pk → Ordering
  | [], [] => .eq
  | [], _ :: _ => .lt
  | _ :: _, [] => .gt
  | x :: xs, y :: ys => (cmpPk x y).then (cmpKeyList xs ys)

end

/-! ## The candidate-map and cache invariants of the compiler. -/

/-- A well-formed candidate entry: the key records the type of the value,
the value is non-malleable, and its satisfaction opcode count, when
defined, does not exceed the script opcode limit. -/
def entryGood (kv : CompilationKey × AstElemExt Pk PkH) : Prop :=
  kv.1.ty = kv.2.ms.ty ∧
  kv.2.ms.ty.mall.non_malleable = true ∧
  ∀ op, kv.2.ms.ext.ops_count_sat = some op → op ≤ MAX_OPS_PER_SCRIPT

/-- Every entry of the candidate map is well formed. -/
def mapGood (m : CandMap Pk PkH) : Prop := ∀ kv ∈ m, entryGood kv

/-- Every key of the candidate map carries the given dissatisfaction
probability, structurally. -/
def mapDp (dp : Option Q) (m : CandMap Pk PkH) : Prop :=
  ∀ kv ∈ m, kv.1.dissat_prob = dp

/-- Every key of the candidate map carries the given dissatisfaction
probability up to f64 value equality. -/
def mapDpV (dp : Option Q) (m : CandMap Pk PkH) : Prop :=
  ∀ kv ∈ m, Q.obeq kv.1.dissat_prob dp = true

/-- The memoization-cache invariant: every stored map is well formed,
non-empty, and homogeneous in the dissatisfaction probability under which
it was stored. -/
def cacheOk (cache : Cache Pk PkH) : Prop :=
  ∀ ent ∈ cache, mapGood ent.2 ∧ mapDp ent.1.2.2 ent.2 ∧ ent.2 ≠ []

/-- The compiler invariant, as one statement over the whole fuel-indexed
bundle: every field, run on a well-formed cache (and, where a map under
construction is an argument, on a well-formed homogeneous map), returns a
well-formed homogeneous map, a well-formed cache, and, for
best_compilations, a non-empty map. -/
def stepOk (s : CompilerStep Pk PkH) : Prop :=
  (∀ cache policy sp dp r, cacheOk cache →
      s.bC cache policy sp dp = .ok r →
      mapGood r.1 ∧ mapDpV dp r.1 ∧ cacheOk r.2 ∧ r.1 ≠ []) ∧
  (∀ cache policy map e sp dp r, cacheOk cache → mapGood map →
      mapDp dp map → s.iBW cache policy map e sp dp = .ok r →
      mapGood r.1 ∧ mapDp dp r.1 ∧ cacheOk r.2) ∧
  (∀ cache policy map casts sp dp r, cacheOk cache → mapGood map →
      mapDp dp map → s.cIter cache policy map casts sp dp = .ok r →
      mapGood r.1 ∧ mapDp dp r.1 ∧ cacheOk r.2) ∧
  (∀ cache policy ret pairs w0 w1 sp dp bf r, cacheOk cache →
      mapGood ret → mapDp dp ret →
      s.cBin cache policy ret pairs w0 w1 sp dp bf = .ok r →
      mapGood r.1 ∧ mapDp dp r.1 ∧ cacheOk r.2) ∧
  (∀ cache policy ret triples w0 w1 sp dp r, cacheOk cache →
      mapGood ret → mapDp dp ret →
      s.cTern cache policy ret triples w0 w1 sp dp = .ok r →
      mapGood r.1 ∧ mapDp dp r.1 ∧ cacheOk r.2) ∧
  (∀ cache policy sp dp r, cacheOk cache →
      s.bE cache policy sp dp = .ok r → cacheOk r.2) ∧
  (∀ cache policy sp dp r, cacheOk cache →
      s.bW cache policy sp dp = .ok r → cacheOk r.2) ∧
  (∀ cache subs sp dp es ws i mi mv r, cacheOk cache →
      s.tLoop cache subs sp dp es ws i mi mv = .ok r →
      cacheOk r.2.2.2)

/-- Whether a compiler result is a success, as a boolean (used to evaluate
concrete runs inside witnesses). -/
def isOkB {α : Type} : CResult α → Bool
  | .ok _ => true
  | .error _ => false

/-- Pareto-minimality of a candidate map at fixed probabilities: no two
distinct entries are related by the subtype order on keys with the first
at most as costly as the second. -/
def paretoOk (m : CandMap Pk PkH) (sp : Q) (dp : Option Q) : Prop :=
  ∀ a ∈ m, ∀ b ∈ m, a.1.beq b.1 = false →
    a.1.is_subtype b.1 = true →
    costLe (a.2.cost_1d sp dp) (b.2.cost_1d sp dp) = false

/-- A one-key Miniscript used to witness translate_pk. -/
def tinyMs : Miniscript Unit Unit :=
  Miniscript.mk (.pk ()) MSType.from_pk ExtData.from_pk

/-- The identity translation on unit keys. -/
def okU : Unit → Except Unit Unit := fun _ => .ok ()

/-- A Miniscript with the same node as tinyMs but different cached
fields. -/
def otherMs : Miniscript Unit Unit :=
  Miniscript.mk (.pk ()) MSType.from_true ExtData.from_true

/-! ## Helper lemmas. -/

mutual

/-- Structural equality on Terminal is reflexive. -/
theorem Terminal.beqT_refl [DecidableEq Pk] [DecidableEq PkH] :
    ∀ t : Terminal Pk PkH, Terminal.beqT t t = true
  | .tTrue => rfl
  | .tFalse => rfl
  | .pk _ => by simp [Terminal.beqT]
  | .pkH _ => by simp [Terminal.beqT]
  | .after _ => by simp [Terminal.beqT]
  | .older _ => by simp [Terminal.beqT]
  | .sha256 _ => by simp [Terminal.beqT]
  | .hash256 _ => by simp [Terminal.beqT]
  | .ripemd160 _ => by simp [Terminal.beqT]
  | .hash160 _ => by simp [Terminal.beqT]
  | .alt x => by simp [Terminal.beqT, Miniscript.beqM_refl x]
  | .swap x => by simp [Terminal.beqT, Miniscript.beqM_refl x]
  | .check x => by simp [Terminal.beqT, Miniscript.beqM_refl x]
  | .dupIf x => by simp [Terminal.beqT, Miniscript.beqM_refl x]
  | .verify x => by simp [Terminal.beqT, Miniscript.beqM_refl x]
  | .nonZero x => by simp [Terminal.beqT, Miniscript.beqM_refl x]
  | .zeroNotEqual x => by simp [Terminal.beqT, Miniscript.beqM_refl x]
  | .andV x y => by
      simp [Terminal.beqT, Miniscript.beqM_refl x, Miniscript.beqM_refl y]
  | .andB x y => by
      simp [Terminal.beqT, Miniscript.beqM_refl x, Miniscript.beqM_refl y]
  | .andOr x y z => by
      simp [Terminal.beqT, Miniscript.beqM_refl x, Miniscript.beqM_refl y,
        Miniscript.beqM_refl z]
  | .orB x y => by
      simp [Terminal.beqT, Miniscript.beqM_refl x, Miniscript.beqM_refl y]
  | .orD x y => by
      simp [Terminal.beqT, Miniscript.beqM_refl x, Miniscript.beqM_refl y]
  | .orC x y => by
      simp [Terminal.beqT, Miniscript.beqM_refl x, Miniscript.beqM_refl y]
  | .orI x y => by
      simp [Terminal.beqT, Miniscript.beqM_refl x, Miniscript.beqM_refl y]
  | .thresh _ s => by simp [Terminal.beqT, beqMsList_refl s]
  | .threshM _ _ => by simp [Terminal.beqT]

/-- Node-only equality on Miniscript is reflexive. -/
theorem Miniscript.beqM_refl [DecidableEq Pk] [DecidableEq PkH] :
    ∀ m : Miniscript Pk PkH, Miniscript.beqM m m = true
  | .mk n _ _ => Terminal.beqT_refl n

/-- Elementwise equality of child lists is reflexive. -/
theorem beqMsList_refl [DecidableEq Pk] [DecidableEq PkH] :
    ∀ l : List (Miniscript Pk PkH), beqMsList l l = true
  | [] => rfl
  | x :: xs => by
      simp [beqMsList, Miniscript.beqM_refl x, beqMsList_refl xs]

end


/-- Value equality on Q is reflexive. -/
theorem Q.beq_self (a : Q) : a.beq a = true := by simp [Q.beq]

/-- Value equality on Q is symmetric. -/
theorem Q.beq_symm {a b : Q} (h : a.beq b = true) : b.beq a = true := by
  simp only [Q.beq, decide_eq_true_eq] at h ⊢
  omega

/-- Value equality on optional rationals is symmetric. -/
theorem Q.obeq_symm {a b : Option Q} (h : Q.obeq a b = true) :
    Q.obeq b a = true := by
  cases a <;> cases b <;> simp_all [Q.obeq]
  exact Q.beq_symm h

/-- The input subtype relation is reflexive. -/
theorem MSInput.input_subtype_refl (i : MSInput) : i.is_subtype i = true := by
  cases i <;> rfl

/-- The correctness subtype relation is reflexive. -/
theorem Correctness.corr_subtype_refl (c : Correctness) :
    c.is_subtype c = true := by
  cases c with
  | mk base input d u =>
      cases d <;> cases u <;>
        simp [Correctness.is_subtype, MSInput.input_subtype_refl]

/-- The dissatisfaction-class subtype relation is reflexive. -/
theorem MSDissat.dissat_subtype_refl (d : MSDissat) : d.is_subtype d = true := by
  cases d <;> rfl

/-- The malleability subtype relation is reflexive. -/
theorem Malleability.mall_subtype_refl (m : Malleability) :
    m.is_subtype m = true := by
  cases m with
  | mk d s n =>
      cases s <;> cases n <;>
        simp [Malleability.is_subtype, MSDissat.dissat_subtype_refl]

/-- The type subtype relation is reflexive. -/
theorem MSType.type_subtype_refl (t : MSType) : t.is_subtype t = true := by
  simp [MSType.is_subtype, Correctness.corr_subtype_refl,
    Malleability.mall_subtype_refl]

/-- Keys that are equal as map keys are subtypes of each other. -/
theorem CompilationKey.beq_subtype {a b : CompilationKey}
    (h : a.beq b = true) :
    a.is_subtype b = true ∧ b.is_subtype a = true := by
  simp only [CompilationKey.beq, Bool.and_eq_true, decide_eq_true_eq] at h
  obtain ⟨⟨hty, hev⟩, hdp⟩ := h
  constructor
  · simp [CompilationKey.is_subtype, hty, hev, MSType.type_subtype_refl, hdp]
  · simp [CompilationKey.is_subtype, hty, hev, MSType.type_subtype_refl,
      Q.obeq_symm hdp]

/-- Map-key equality is reflexive. -/
theorem CompilationKey.key_beq_refl (a : CompilationKey) : a.beq a = true := by
  cases a with
  | mk ty ev dp =>
      simp [CompilationKey.beq]
      cases dp <;> simp [Q.obeq, Q.beq_self]

/-- The f64 order on costs is total. -/
theorem costLe_total (a b : Cost) :
    costLe a b = true ∨ costLe b a = true := by
  cases a <;> cases b <;> simp [costLe, Q.ble]
  omega

/-! ## Preservation lemmas for the compiler invariant. -/

/-- Unfold a successful bind in the Except monad. -/
theorem except_bind_ok {α β : Type} {x : Except CFail α}
    {g : α → Except CFail β} {r : β} (h : (x >>= g) = .ok r) :
    ∃ a, x = .ok a ∧ g a = .ok r := by
  cases hx : x with
  | error e => rw [hx] at h; simp [bind, Except.bind] at h
  | ok a =>
      refine ⟨a, rfl, ?_⟩
      rw [hx] at h
      simpa [bind, Except.bind] using h

/-- A successful orStuck comes from a present option. -/
theorem orStuck_ok {α : Type} {o : Option α} {a : α}
    (h : orStuck o = .ok a) : o = some a := by
  cases o with
  | none => simp [orStuck] at h
  | some b => simpa [orStuck] using h

/-- A fold preserves any invariant its step function preserves. -/
theorem foldl_inv {α β : Type} {P : α → Prop} (f : α → β → α)
    (hf : ∀ a b, P a → P (f a b)) :
    ∀ (l : List β) (a : α), P a → P (l.foldl f a)
  | [], _, h => h
  | b :: l, a, h => foldl_inv f hf l (f a b) (hf a b h)

/-- A monadic fold in the Except monad preserves any invariant its step
function preserves on success. -/
theorem foldlM_inv {α β : Type} {P : α → Prop}
    (f : α → β → Except CFail α)
    (hf : ∀ a b r, P a → f a b = .ok r → P r) :
    ∀ (l : List β) (a r : α), P a → l.foldlM f a = .ok r → P r
  | [], a, r, h, hr => by
      simp only [List.foldlM_nil] at hr
      cases hr
      exact h
  | b :: l, a, r, h, hr => by
      simp only [List.foldlM_cons] at hr
      obtain ⟨a2, ha2, hrest⟩ := except_bind_ok hr
      exact foldlM_inv f hf l a2 r (hf a b a2 h ha2) hrest

/-- A fold over options whose step keeps the accumulator or switches to
the current element produces the accumulator or a list member. -/
theorem foldl_opt_mem {α : Type} (f : Option α → α → Option α)
    (hf : ∀ acc x, f acc x = acc ∨ f acc x = some x) :
    ∀ (l : List α) (acc : Option α) (v : α),
      l.foldl f acc = some v → acc = some v ∨ v ∈ l
  | [], _, _, h => Or.inl h
  | x :: l, acc, v, h => by
      rw [List.foldl_cons] at h
      rcases foldl_opt_mem f hf l (f acc x) v h with h1 | h2
      · rcases hf acc x with h3 | h3
        · exact Or.inl (h3 ▸ h1)
        · rw [h3] at h1
          cases h1
          exact Or.inr (List.mem_cons_self x l)
      · exact Or.inr (List.mem_cons_of_mem x h2)

/-- Members of a map after insertion are the inserted pair or old
members. -/
theorem mapInsert_mem {m : CandMap Pk PkH} {k : CompilationKey}
    {v : AstElemExt Pk PkH} {kv : CompilationKey × AstElemExt Pk PkH}
    (h : kv ∈ mapInsert m k v) : kv = (k, v) ∨ kv ∈ m := by
  unfold mapInsert at h
  split at h
  · obtain ⟨kv0, hkv0, heq⟩ := List.mem_map.mp h
    by_cases hb : kv0.1.beq k = true
    · rw [if_pos hb] at heq
      exact Or.inl heq.symm
    · rw [if_neg hb] at heq
      exact Or.inr (heq ▸ hkv0)
  · rcases List.mem_append.mp h with h1 | h2
    · exact Or.inr h1
    · simp only [List.mem_singleton] at h2
      exact Or.inl h2

/-- insert_elem preserves well-formedness and dissatisfaction-probability
homogeneity of the candidate map. -/
theorem insert_elem_preserve {m : CandMap Pk PkH} {e : AstElemExt Pk PkH}
    {sp : Q} {dp : Option Q} (hg : mapGood m) (hd : mapDp dp m) :
    mapGood (insert_elem m e sp dp).1 ∧
      mapDp dp (insert_elem m e sp dp).1 := by
  unfold insert_elem
  split
  next => exact ⟨hg, hd⟩
  split
  next => exact ⟨hg, hd⟩
  next hmall hops =>
    simp only []
    split
    next =>
      constructor
      · intro kv hkv
        rcases mapInsert_mem hkv with hnew | hold
        · subst hnew
          refine ⟨rfl, ?_, ?_⟩
          · simpa using hmall
          · intro op hop
            rw [hop] at hops
            simpa using hops
        · exact hg kv (List.mem_filter.mp hold).1
      · intro kv hkv
        rcases mapInsert_mem hkv with hnew | hold
        · subst hnew
          rfl
        · exact hd kv (List.mem_filter.mp hold).1
    next => exact ⟨hg, hd⟩

/-- One work-queue step of the cast closure preserves the map
invariants. -/
theorem closureStep_preserve {m : CandMap Pk PkH}
    {cur : AstElemExt Pk PkH} {sp : Q} {dp : Option Q}
    (hg : mapGood m) (hd : mapDp dp m) :
    mapGood (closureStep m cur sp dp).1 ∧
      mapDp dp (closureStep m cur sp dp).1 := by
  unfold closureStep
  have := foldl_inv
    (P := fun acc : CandMap Pk PkH × List (AstElemExt Pk PkH) =>
      mapGood acc.1 ∧ mapDp dp acc.1)
    (fun acc c =>
      match c.cast cur with
      | some new_ext =>
          let step := insert_elem acc.1 new_ext sp dp
          (step.1, if step.2 then acc.2 ++ [new_ext] else acc.2)
      | none => acc)
    ?_ all_casts (m, []) ⟨hg, hd⟩
  · exact this
  · intro acc c hacc
    cases hc : c.cast cur with
    | none => simpa [hc] using hacc
    | some new_ext =>
        simp only [hc]
        exact insert_elem_preserve hacc.1 hacc.2

/-- The cast-closure loop preserves the map invariants. -/
theorem closureLoop_preserve :
    ∀ (fuel : Nat) (m : CandMap Pk PkH) (q : List (AstElemExt Pk PkH))
      (sp : Q) (dp : Option Q) (m2 : CandMap Pk PkH),
      mapGood m → mapDp dp m → closureLoop fuel m q sp dp = some m2 →
      mapGood m2 ∧ mapDp dp m2
  | _, m, [], sp, dp, m2, hg, hd, h => by
      simp only [closureLoop] at h
      cases h
      exact ⟨hg, hd⟩
  | 0, m, c :: q, sp, dp, m2, hg, hd, h => by
      simp only [closureLoop] at h
      exact Option.noConfusion h
  | fuel + 1, m, c :: q, sp, dp, m2, hg, hd, h => by
      simp only [closureLoop] at h
      have hs : mapGood (closureStep m c sp dp).1 ∧
          mapDp dp (closureStep m c sp dp).1 := closureStep_preserve hg hd
      exact closureLoop_preserve fuel _ _ sp dp m2 hs.1 hs.2 h

/-- insert_elem_closure preserves the map invariants. -/
theorem insert_elem_closure_preserve {fuel : Nat} {m : CandMap Pk PkH}
    {e : AstElemExt Pk PkH} {sp : Q} {dp : Option Q}
    {m2 : CandMap Pk PkH} (hg : mapGood m) (hd : mapDp dp m)
    (h : insert_elem_closure fuel m e sp dp = some m2) :
    mapGood m2 ∧ mapDp dp m2 := by
  unfold insert_elem_closure at h
  have hi : mapGood (insert_elem m e sp dp).1 ∧
      mapDp dp (insert_elem m e sp dp).1 := insert_elem_preserve hg hd
  exact closureLoop_preserve fuel _ _ sp dp m2 hi.1 hi.2 h

/-- The minimum candidate by one-dimensional cost is a member of the
scanned list. -/
theorem minByCost_mem {l : List (AstElemExt Pk PkH)} {sp : Q}
    {dp : Option Q} {v : AstElemExt Pk PkH}
    (h : minByCost l sp dp = some v) : v ∈ l := by
  unfold minByCost at h
  have := foldl_opt_mem _ ?_ l none v h
  · rcases this with h1 | h2
    · cases h1
    · exact h2
  · intro acc x
    cases acc with
    | none => exact Or.inr rfl
    | some cur =>
        simp only []
        split
        · exact Or.inr rfl
        · exact Or.inl rfl

/-- A cache hit on a well-formed cache yields a well-formed, non-empty map
homogeneous (by f64 value) in the requested dissatisfaction
probability. -/
theorem cacheFind_some {cache : Cache Pk PkH} {policy : Concrete Pk}
    {sp : Q} {dp : Option Q} {m : CandMap Pk PkH} (hc : cacheOk cache)
    (h : cacheFind cache policy sp dp = some m) :
    mapGood m ∧ mapDpV dp m ∧ m ≠ [] := by
  unfold cacheFind at h
  cases hf : cache.find? fun kv =>
      cbeq kv.1.1 policy && Q.beq kv.1.2.1 sp && Q.obeq kv.1.2.2 dp with
  | none => rw [hf] at h; cases h
  | some ent =>
      rw [hf] at h
      simp only [Option.map_some'] at h
      cases h
      have hmem := List.mem_of_find?_eq_some hf
      have hp := List.find?_some hf
      obtain ⟨hg, hdp, hne⟩ := hc ent hmem
      refine ⟨hg, ?_, hne⟩
      intro kv hkv
      rw [hdp kv hkv]
      simp only [Bool.and_eq_true] at hp
      exact hp.2

/-- Value equality on optional rationals is reflexive. -/
theorem Q.obeq_refl (o : Option Q) : Q.obeq o o = true := by
  cases o <;> simp [Q.obeq, Q.beq_self]

/-- The empty map is well formed. -/
theorem mapGood_nil : mapGood ([] : CandMap Pk PkH) :=
  fun kv hkv => absurd hkv (List.not_mem_nil kv)

/-- The empty map is homogeneous at any probability. -/
theorem mapDp_nil (dp : Option Q) : mapDp dp ([] : CandMap Pk PkH) :=
  fun kv hkv => absurd hkv (List.not_mem_nil kv)

/-- Structural homogeneity implies value homogeneity. -/
theorem mapDp_to_V {dp : Option Q} {m : CandMap Pk PkH}
    (h : mapDp dp m) : mapDpV dp m := by
  intro kv hkv
  rw [h kv hkv]
  exact Q.obeq_refl dp

/-- The compiler invariant holds for the fuel-zero bundle. -/
theorem stepZero_ok : stepOk (stepZero : CompilerStep Pk PkH) := by
  refine ⟨?_, ?_, ?_, ?_, ?_, ?_, ?_, ?_⟩
  · intro cache policy sp dp rr hc h
    exact Except.noConfusion h
  · intro cache policy map e sp dp rr hc hg hd h
    exact Except.noConfusion h
  · intro cache policy map casts sp dp rr hc hg hd h
    cases casts with
    | nil => cases h; exact ⟨hg, hd, hc⟩
    | cons c cs => exact Except.noConfusion h
  · intro cache policy ret pairs w0 w1 sp dp bf rr hc hg hd h
    cases pairs with
    | nil => cases h; exact ⟨hg, hd, hc⟩
    | cons p ps => exact Except.noConfusion h
  · intro cache policy ret triples w0 w1 sp dp rr hc hg hd h
    cases triples with
    | nil => cases h; exact ⟨hg, hd, hc⟩
    | cons t ts => exact Except.noConfusion h
  · intro cache policy sp dp rr hc h
    exact Except.noConfusion h
  · intro cache policy sp dp rr hc h
    exact Except.noConfusion h
  · intro cache subs sp dp es ws i mi mv rr hc h
    cases subs with
    | nil => cases h; exact hc
    | cons s ss => exact Except.noConfusion h

/-- The compiler invariant is preserved by one fuel step: each field of
the fuel f+1 bundle, which is the body of the corresponding compiler.rs
function over the fuel f bundle, maintains the cache and map
invariants. -/
theorem stepSucc_ok (f : Nat) (prev : CompilerStep Pk PkH)
    (ih : stepOk prev) : stepOk (stepSucc toHash f prev) := by
  obtain ⟨ihbC, ihiBW, ihcIter, ihcBin, ihcTern, ihbE, ihbW, ihtLoop⟩ := ih
  refine ⟨?_, ?_, ?_, ?_, ?_, ?_, ?_, ?_⟩
  · -- bC: best_compilations
    intro cache policy sp dp rr hc h
    simp only [stepSucc] at h
    cases hcf : cacheFind cache policy sp dp with
    | some m0 =>
        rw [hcf] at h
        cases h
        obtain ⟨hg, hdv, hne⟩ := cacheFind_some hc hcf
        exact ⟨hg, hdv, hc, hne⟩
    | none =>
        rw [hcf] at h
        obtain ⟨⟨ret0, cache0⟩, hcore, h⟩ := except_bind_ok h
        have hP : mapGood ret0 ∧ mapDp dp ret0 ∧ cacheOk cache0 := by
          clear h
          cases policy with
          | key pk =>
              obtain ⟨e1, he1, hcore⟩ := except_bind_ok hcore
              obtain ⟨⟨r1, c1⟩, h1, hcore⟩ := except_bind_ok hcore
              obtain ⟨e2, he2, hcore⟩ := except_bind_ok hcore
              have H1 := ihiBW _ _ _ _ _ _ _ hc mapGood_nil
                (mapDp_nil dp) h1
              have H2 := ihiBW _ _ _ _ _ _ _ H1.2.2 H1.1 H1.2.1 hcore
              exact H2
          | after n =>
              obtain ⟨e1, he1, hcore⟩ := except_bind_ok hcore
              exact ihiBW _ _ _ _ _ _ _ hc mapGood_nil (mapDp_nil dp) hcore
          | older n =>
              obtain ⟨e1, he1, hcore⟩ := except_bind_ok hcore
              exact ihiBW _ _ _ _ _ _ _ hc mapGood_nil (mapDp_nil dp) hcore
          | sha256 n =>
              obtain ⟨e1, he1, hcore⟩ := except_bind_ok hcore
              exact ihiBW _ _ _ _ _ _ _ hc mapGood_nil (mapDp_nil dp) hcore
          | hash256 n =>
              obtain ⟨e1, he1, hcore⟩ := except_bind_ok hcore
              exact ihiBW _ _ _ _ _ _ _ hc mapGood_nil (mapDp_nil dp) hcore
          | ripemd160 n =>
              obtain ⟨e1, he1, hcore⟩ := except_bind_ok hcore
              exact ihiBW _ _ _ _ _ _ _ hc mapGood_nil (mapDp_nil dp) hcore
          | hash160 n =>
              obtain ⟨e1, he1, hcore⟩ := except_bind_ok hcore
              exact ihiBW _ _ _ _ _ _ _ hc mapGood_nil (mapDp_nil dp) hcore
          | and subs =>
              match subs with
              | [] => exact Except.noConfusion hcore
              | [p1] => exact Except.noConfusion hcore
              | p1 :: p2 :: p3 :: ps => exact Except.noConfusion hcore
              | [p1, p2] =>
                obtain ⟨⟨left, c1⟩, hL, hcore⟩ := except_bind_ok hcore
                have HL := ihbC _ _ _ _ _ hc hL
                obtain ⟨⟨right, c2⟩, hR, hcore⟩ := except_bind_ok hcore
                have HR := ihbC _ _ _ _ _ HL.2.2.1 hR
                obtain ⟨⟨qzr, c3⟩, hQ1, hcore⟩ := except_bind_ok hcore
                have HQ1 := ihbC _ _ _ _ _ HR.2.2.1 hQ1
                obtain ⟨⟨qzl, c4⟩, hQ2, hcore⟩ := except_bind_ok hcore
                have HQ2 := ihbC _ _ _ _ _ HQ1.2.2.1 hQ2
                obtain ⟨⟨m1, c5⟩, hB1, hcore⟩ := except_bind_ok hcore
                have HB1 := ihcBin _ _ _ _ _ _ _ _ _ _ HQ2.2.2.1
                  mapGood_nil (mapDp_nil dp) hB1
                obtain ⟨⟨m2, c6⟩, hB2, hcore⟩ := except_bind_ok hcore
                have HB2 := ihcBin _ _ _ _ _ _ _ _ _ _ HB1.2.2 HB1.1
                  HB1.2.1 hB2
                obtain ⟨⟨m3, c7⟩, hB3, hcore⟩ := except_bind_ok hcore
                have HB3 := ihcBin _ _ _ _ _ _ _ _ _ _ HB2.2.2 HB2.1
                  HB2.2.1 hB3
                obtain ⟨⟨m4, c8⟩, hB4, hcore⟩ := except_bind_ok hcore
                have HB4 := ihcBin _ _ _ _ _ _ _ _ _ _ HB3.2.2 HB3.1
                  HB3.2.1 hB4
                obtain ⟨fe, hfe, hcore⟩ := except_bind_ok hcore
                obtain ⟨⟨m5, c9⟩, hT1, hcore⟩ := except_bind_ok hcore
                have HT1 := ihcTern _ _ _ _ _ _ _ _ _ HB4.2.2 HB4.1
                  HB4.2.1 hT1
                have HT2 := ihcTern _ _ _ _ _ _ _ _ _ HT1.2.2 HT1.1
                  HT1.2.1 hcore
                exact HT2
          | or subs =>
              obtain ⟨s0, hs0g, hcore⟩ := except_bind_ok hcore
              obtain ⟨s1, hs1g, hcore⟩ := except_bind_ok hcore
              obtain ⟨⟨r1, c1⟩, hM1, hcore⟩ := except_bind_ok hcore
              have H1 : mapGood r1 ∧ mapDp dp r1 ∧ cacheOk c1 := by
                cases hss : s0.2
                case and xs =>
                  rw [hss] at hM1
                  obtain ⟨x0, hx0, hM1⟩ := except_bind_ok hM1
                  obtain ⟨x1, hx1, hM1⟩ := except_bind_ok hM1
                  obtain ⟨⟨a1, d1⟩, ha1, hM1⟩ := except_bind_ok hM1
                  have HA1 := ihbC _ _ _ _ _ hc ha1
                  obtain ⟨⟨a2, d2⟩, ha2, hM1⟩ := except_bind_ok hM1
                  have HA2 := ihbC _ _ _ _ _ HA1.2.2.1 ha2
                  obtain ⟨⟨b1, d3⟩, hb1, hM1⟩ := except_bind_ok hM1
                  have HB1 := ihbC _ _ _ _ _ HA2.2.2.1 hb1
                  obtain ⟨⟨b2, d4⟩, hb2, hM1⟩ := except_bind_ok hM1
                  have HB2 := ihbC _ _ _ _ _ HB1.2.2.1 hb2
                  obtain ⟨⟨cc, d5⟩, hcc, hM1⟩ := except_bind_ok hM1
                  have HC := ihbC _ _ _ _ _ HB2.2.2.1 hcc
                  obtain ⟨⟨t1, d6⟩, ht1, hM1⟩ := except_bind_ok hM1
                  have HT1 := ihcTern _ _ _ _ _ _ _ _ _ HC.2.2.1
                    mapGood_nil (mapDp_nil dp) ht1
                  have HT2 := ihcTern _ _ _ _ _ _ _ _ _ HT1.2.2 HT1.1
                    HT1.2.1 hM1
                  exact HT2
                all_goals
                  rw [hss] at hM1
                  cases hM1
                  exact ⟨mapGood_nil, mapDp_nil dp, hc⟩
              obtain ⟨⟨r2, c2⟩, hM2, hcore⟩ := except_bind_ok hcore
              have H2 : mapGood r2 ∧ mapDp dp r2 ∧ cacheOk c2 := by
                cases hss : s1.2
                case and xs =>
                  rw [hss] at hM2
                  obtain ⟨x0, hx0, hM2⟩ := except_bind_ok hM2
                  obtain ⟨x1, hx1, hM2⟩ := except_bind_ok hM2
                  obtain ⟨⟨a1, d1⟩, ha1, hM2⟩ := except_bind_ok hM2
                  have HA1 := ihbC _ _ _ _ _ H1.2.2 ha1
                  obtain ⟨⟨a2, d2⟩, ha2, hM2⟩ := except_bind_ok hM2
                  have HA2 := ihbC _ _ _ _ _ HA1.2.2.1 ha2
                  obtain ⟨⟨b1, d3⟩, hb1, hM2⟩ := except_bind_ok hM2
                  have HB1 := ihbC _ _ _ _ _ HA2.2.2.1 hb1
                  obtain ⟨⟨b2, d4⟩, hb2, hM2⟩ := except_bind_ok hM2
                  have HB2 := ihbC _ _ _ _ _ HB1.2.2.1 hb2
                  obtain ⟨⟨cc, d5⟩, hcc, hM2⟩ := except_bind_ok hM2
                  have HC := ihbC _ _ _ _ _ HB2.2.2.1 hcc
                  obtain ⟨⟨t1, d6⟩, ht1, hM2⟩ := except_bind_ok hM2
                  have HT1 := ihcTern _ _ _ _ _ _ _ _ _ HC.2.2.1 H1.1
                    H1.2.1 ht1
                  have HT2 := ihcTern _ _ _ _ _ _ _ _ _ HT1.2.2 HT1.1
                    HT1.2.1 hM2
                  exact HT2
                all_goals
                  rw [hss] at hM2
                  cases hM2
                  exact H1
              obtain ⟨⟨l0, e1⟩, hl0, hcore⟩ := except_bind_ok hcore
              have Hl0 := ihbC _ _ _ _ _ H2.2.2 hl0
              obtain ⟨⟨l1, e2⟩, hl1, hcore⟩ := except_bind_ok hcore
              have Hl1 := ihbC _ _ _ _ _ Hl0.2.2.1 hl1
              obtain ⟨⟨l2, e3⟩, hl2, hcore⟩ := except_bind_ok hcore
              have Hl2 := ihbC _ _ _ _ _ Hl1.2.2.1 hl2
              obtain ⟨⟨l3, e4⟩, hl3, hcore⟩ := except_bind_ok hcore
              have Hl3 := ihbC _ _ _ _ _ Hl2.2.2.1 hl3
              obtain ⟨⟨r0m, e5⟩, hr0, hcore⟩ := except_bind_ok hcore
              have Hr0 := ihbC _ _ _ _ _ Hl3.2.2.1 hr0
              obtain ⟨⟨r1m, e6⟩, hr1, hcore⟩ := except_bind_ok hcore
              have Hr1 := ihbC _ _ _ _ _ Hr0.2.2.1 hr1
              obtain ⟨⟨r2m, e7⟩, hr2, hcore⟩ := except_bind_ok hcore
              have Hr2 := ihbC _ _ _ _ _ Hr1.2.2.1 hr2
              obtain ⟨⟨r3m, e8⟩, hr3, hcore⟩ := except_bind_ok hcore
              have Hr3 := ihbC _ _ _ _ _ Hr2.2.2.1 hr3
              obtain ⟨⟨g1, f1⟩, hg1, hcore⟩ := except_bind_ok hcore
              have Hg1 := ihcBin _ _ _ _ _ _ _ _ _ _ Hr3.2.2.1 H2.1
                H2.2.1 hg1
              obtain ⟨⟨g2, f2⟩, hg2, hcore⟩ := except_bind_ok hcore
              have Hg2 := ihcBin _ _ _ _ _ _ _ _ _ _ Hg1.2.2 Hg1.1
                Hg1.2.1 hg2
              obtain ⟨⟨g3, f3⟩, hg3, hcore⟩ := except_bind_ok hcore
              have Hg3 := ihcBin _ _ _ _ _ _ _ _ _ _ Hg2.2.2 Hg2.1
                Hg2.2.1 hg3
              obtain ⟨⟨g4, f4⟩, hg4, hcore⟩ := except_bind_ok hcore
              have Hg4 := ihcBin _ _ _ _ _ _ _ _ _ _ Hg3.2.2 Hg3.1
                Hg3.2.1 hg4
              obtain ⟨⟨g5, f5⟩, hg5, hcore⟩ := except_bind_ok hcore
              have Hg5 := ihcBin _ _ _ _ _ _ _ _ _ _ Hg4.2.2 Hg4.1
                Hg4.2.1 hg5
              obtain ⟨⟨g6, f6⟩, hg6, hcore⟩ := except_bind_ok hcore
              have Hg6 := ihcBin _ _ _ _ _ _ _ _ _ _ Hg5.2.2 Hg5.1
                Hg5.2.1 hg6
              obtain ⟨⟨g7, f7⟩, hg7, hcore⟩ := except_bind_ok hcore
              have Hg7 := ihcBin _ _ _ _ _ _ _ _ _ _ Hg6.2.2 Hg6.1
                Hg6.2.1 hg7
              obtain ⟨⟨g8, f8⟩, hg8, hcore⟩ := except_bind_ok hcore
              have Hg8 := ihcBin _ _ _ _ _ _ _ _ _ _ Hg7.2.2 Hg7.1
                Hg7.2.1 hg8
              obtain ⟨⟨g9, f9⟩, hg9, hcore⟩ := except_bind_ok hcore
              have Hg9 := ihcBin _ _ _ _ _ _ _ _ _ _ Hg8.2.2 Hg8.1
                Hg8.2.1 hg9
              have Hg10 := ihcBin _ _ _ _ _ _ _ _ _ _ Hg9.2.2 Hg9.1
                Hg9.2.1 hcore
              exact Hg10
          | threshold k subs =>
              obtain ⟨⟨es, ws, mi, c1⟩, hTL, hcore⟩ := except_bind_ok hcore
              have HTL := ihtLoop _ _ _ _ _ _ _ _ _ _ hc hTL
              obtain ⟨ep, hep, hcore⟩ := except_bind_ok hcore
              obtain ⟨ms0, hms0, hcore⟩ := except_bind_ok hcore
              obtain ⟨comp0, hcomp0, hcore⟩ := except_bind_ok hcore
              obtain ⟨⟨r1, c2⟩, hI1, hcore⟩ := except_bind_ok hcore
              have HI1 := ihiBW _ _ _ _ _ _ _ HTL mapGood_nil
                (mapDp_nil dp) hI1
              split at hcore
              · obtain ⟨e2, he2, hcore⟩ := except_bind_ok hcore
                exact ihiBW _ _ _ _ _ _ _ HI1.2.2 HI1.1 HI1.2.1 hcore
              · cases hcore
                exact HI1
        simp only [] at h
        split at h
        next => exact Except.noConfusion h
        next hlen =>
          cases h
          have hne : ret0 ≠ [] := by
            intro hnil
            exact hlen (by simp [hnil])
          refine ⟨hP.1, mapDp_to_V hP.2.1, ?_, hne⟩
          intro ent hent
          rcases List.mem_cons.mp hent with hh | ht
          · subst hh
            exact ⟨hP.1, hP.2.1, hne⟩
          · exact hP.2.2 ent ht
  · -- iBW: insert_best_wrapped
    intro cache policy map e sp dp rr hc hg hd h
    simp only [stepSucc] at h
    obtain ⟨m1, hm1, h⟩ := except_bind_ok h
    have hm1' := insert_elem_closure_preserve hg hd (orStuck_ok hm1)
    split at h
    · exact ihcIter _ _ _ _ _ _ _ hc hm1'.1 hm1'.2 h
    · cases h
      exact ⟨hm1'.1, hm1'.2, hc⟩
  · -- cIter: the cast loop of insert_best_wrapped
    intro cache policy map casts sp dp rr hc hg hd h
    simp only [stepSucc] at h
    cases casts with
    | nil =>
        cases h
        exact ⟨hg, hd, hc⟩
    | cons c rest =>
        obtain ⟨⟨vals, c1⟩, hv, h⟩ := except_bind_ok h
        have HV := ihbC _ _ _ _ _ hc hv
        obtain ⟨m2, hm2, h⟩ := except_bind_ok h
        have hm2' : mapGood m2 ∧ mapDp dp m2 := by
          refine foldlM_inv (P := fun m => mapGood m ∧ mapDp dp m) _ ?_
            (vals.map Prod.snd) map m2 ⟨hg, hd⟩ hm2
          intro m x r2 hm hstep
          cases hcx : c.cast x with
          | some ne =>
              rw [hcx] at hstep
              exact insert_elem_closure_preserve hm.1 hm.2
                (orStuck_ok hstep)
          | none =>
              rw [hcx] at hstep
              cases hstep
              exact hm
        exact ihcIter _ _ _ _ _ _ _ HV.2.2.1 hm2'.1 hm2'.2 h
  · -- cBin: compile_binary
    intro cache policy ret pairs w0 w1 sp dp bf rr hc hg hd h
    simp only [stepSucc] at h
    cases pairs with
    | nil =>
        cases h
        exact ⟨hg, hd, hc⟩
    | cons p rest =>
        obtain ⟨pl, pr⟩ := p
        simp only [] at h
        split at h
        next new_ext heq =>
          obtain ⟨⟨m1, c1⟩, h1, h⟩ := except_bind_ok h
          have H1 := ihiBW _ _ _ _ _ _ _ hc hg hd h1
          exact ihcBin _ _ _ _ _ _ _ _ _ _ H1.2.2 H1.1 H1.2.1 h
        next heq =>
          exact ihcBin _ _ _ _ _ _ _ _ _ _ hc hg hd h
  · -- cTern: compile_tern
    intro cache policy ret triples w0 w1 sp dp rr hc hg hd h
    simp only [stepSucc] at h
    cases triples with
    | nil =>
        cases h
        exact ⟨hg, hd, hc⟩
    | cons t rest =>
        obtain ⟨ta, tb, tc⟩ := t
        simp only [] at h
        split at h
        next new_ext heq =>
          obtain ⟨⟨m1, c1⟩, h1, h⟩ := except_bind_ok h
          have H1 := ihiBW _ _ _ _ _ _ _ hc hg hd h1
          exact ihcTern _ _ _ _ _ _ _ _ _ H1.2.2 H1.1 H1.2.1 h
        next heq =>
          exact ihcTern _ _ _ _ _ _ _ _ _ hc hg hd h
  · -- bE: best_e
    intro cache policy sp dp rr hc h
    simp only [stepSucc] at h
    obtain ⟨⟨m1, c1⟩, hm, h⟩ := except_bind_ok h
    have H := ihbC _ _ _ _ _ hc hm
    split at h
    next v heq =>
      cases h
      exact H.2.2.1
    next heq => exact Except.noConfusion h
  · -- bW: best_w
    intro cache policy sp dp rr hc h
    simp only [stepSucc] at h
    obtain ⟨⟨m1, c1⟩, hm, h⟩ := except_bind_ok h
    have H := ihbC _ _ _ _ _ hc hm
    split at h
    next v heq =>
      cases h
      exact H.2.2.1
    next heq => exact Except.noConfusion h
  · -- tLoop: the Threshold sub-loop
    intro cache subs sp dp es ws i mi mv rr hc h
    simp only [stepSucc] at h
    cases subs with
    | nil =>
        cases h
        exact hc
    | cons ast rest =>
        obtain ⟨⟨be, c1⟩, hbe, h⟩ := except_bind_ok h
        have H1 := ihbE _ _ _ _ _ hc hbe
        obtain ⟨⟨bw, c2⟩, hbw, h⟩ := except_bind_ok h
        have H2 := ihbW _ _ _ _ _ H1 hbw
        split at h
        · exact ihtLoop _ _ _ _ _ _ _ _ _ _ H2 h
        · exact ihtLoop _ _ _ _ _ _ _ _ _ _ H2 h

/-- The compiler invariant holds at every fuel. -/
theorem compilerSteps_ok (fuel : Nat) :
    stepOk (compilerSteps toHash fuel) := by
  induction fuel with
  | zero => exact stepZero_ok
  | succ f ihf => exact stepSucc_ok toHash f (compilerSteps toHash f) ihf

/-- The empty cache is well formed. -/
theorem cacheOk_nil : cacheOk ([] : Cache Pk PkH) :=
  fun ent hent => absurd hent (List.not_mem_nil ent)

/-- best_t, on a well-formed cache, picks a base-B non-malleable entry of
the compilation map. -/
theorem best_t_ok {fuel : Nat} {cache : Cache Pk PkH}
    {policy : Concrete Pk} {sp : Q} {dp : Option Q}
    {x : AstElemExt Pk PkH} {c2 : Cache Pk PkH} (hc : cacheOk cache)
    (h : best_t toHash fuel cache policy sp dp = .ok (x, c2)) :
    x.ms.ty.corr.base = MSBase.B ∧ x.ms.ty.mall.non_malleable = true := by
  unfold best_t at h
  obtain ⟨⟨m1, c1⟩, hm, h⟩ := except_bind_ok h
  have H := (compilerSteps_ok toHash fuel).1 _ _ _ _ _ hc hm
  simp only [] at h
  split at h
  next v heq =>
    cases h
    have hv := minByCost_mem heq
    obtain ⟨kv, hkvf, hkv2⟩ := List.mem_map.mp hv
    obtain ⟨hkvm, hpred⟩ := List.mem_filter.mp hkvf
    simp only [Bool.and_eq_true, decide_eq_true_eq] at hpred
    have hE := H.1 kv hkvm
    subst hkv2
    rw [← hE.1]
    exact ⟨hpred.1, hE.1 ▸ hE.2.1⟩
  next heq => exact Except.noConfusion h

/-! ## Claim theorems: the cost model. -/

/-- Claim C4: for every candidate fragment, satisfaction probability p and
optional dissatisfaction probability q, cost_1d is pk_cost plus
sat_cost times p plus a dissatisfaction term: q times dissat_cost when both
are present, plus infinity when q is present but the dissatisfaction cost
is absent, and zero when q is absent regardless of the dissatisfaction
cost. -/
theorem claim_C4_cost_1d (e : AstElemExt Pk PkH) (p : Q) (q : Option Q) :
    e.cost_1d p q =
      costAdd
        (some (Q.ofNat e.ms.ext.pk_cost + e.comp_ext_data.sat_cost * p))
        (match q, e.comp_ext_data.dissat_cost with
          | some qq, some d => some (qq * d)
          | some _, none => none
          | none, _ => some 0) := by
  cases q <;> cases h : e.comp_ext_data.dissat_cost <;>
    simp [AstElemExt.cost_1d, h]

/-- Claim C6: the ten cast cost functions transform the expected
satisfaction and dissatisfaction costs exactly as specified: DupIf adds 2
to sat_cost and sets dissat_cost to 1, Verify removes dissat_cost, NonZero
sets dissat_cost to 1, the True cast keeps sat_cost and removes
dissat_cost, the unlikely cast adds 2 to sat_cost and sets dissat_cost to
1, the likely cast adds 1 to sat_cost and sets dissat_cost to 2, and Alt,
Swap, Check and ZeroNotEqual keep both costs. -/
theorem claim_C6_cast_costs (d : CompilerExtData) :
    CompilerExtData.cast_dupif d = some ⟨none, 2 + d.sat_cost, some 1⟩ ∧
    CompilerExtData.cast_verify d = some ⟨none, d.sat_cost, none⟩ ∧
    CompilerExtData.cast_nonzero d = some ⟨none, d.sat_cost, some 1⟩ ∧
    CompilerExtData.cast_true d = some ⟨none, d.sat_cost, none⟩ ∧
    CompilerExtData.cast_unlikely d =
      some ⟨none, 2 + d.sat_cost, some 1⟩ ∧
    CompilerExtData.cast_likely d = some ⟨none, 1 + d.sat_cost, some 2⟩ ∧
    CompilerExtData.cast_alt d = some ⟨none, d.sat_cost, d.dissat_cost⟩ ∧
    CompilerExtData.cast_swap d = some ⟨none, d.sat_cost, d.dissat_cost⟩ ∧
    CompilerExtData.cast_check d =
      some ⟨none, d.sat_cost, d.dissat_cost⟩ ∧
    CompilerExtData.cast_zeronotequal d =
      some ⟨none, d.sat_cost, d.dissat_cost⟩ :=
  ⟨rfl, rfl, rfl, rfl, rfl, rfl, rfl, rfl, rfl, rfl⟩

/-! ## Claim theorems: the Pareto invariant. -/


/-- insert_elem preserves Pareto-minimality. -/
theorem insert_elem_pareto {m : CandMap Pk PkH} {e : AstElemExt Pk PkH}
    {sp : Q} {dp : Option Q} (h : paretoOk m sp dp) :
    paretoOk (insert_elem m e sp dp).1 sp dp := by
  unfold insert_elem
  split
  · exact h
  split
  · exact h
  next =>
    simp only []
    split
    next hW =>
      simp only [Bool.not_eq_true'] at hW
      rw [List.any_eq_false] at hW
      set ec := e.cost_1d sp dp with hec
      set ek := CompilationKey.from_type e.ms.ty
        e.ms.ext.has_verify_form dp with hek
      set retained := m.filter fun kv =>
        !(ek.is_subtype kv.1 && costLe ec (kv.2.cost_1d sp dp)) with hret
      have hretMem : ∀ kv ∈ retained, kv ∈ m ∧
          ¬(ek.is_subtype kv.1 = true ∧
            costLe ec (kv.2.cost_1d sp dp) = true) := by
        intro kv hkv
        have := List.mem_filter.mp hkv
        refine ⟨this.1, ?_⟩
        intro ⟨h1, h2⟩
        simp [h1, h2] at this
      have hnokey : retained.any (fun kv => kv.1.beq ek) = false := by
        rw [List.any_eq_false]
        intro kv hkv
        simp only [Bool.not_eq_true]
        by_contra hbeq
        simp only [Bool.not_eq_false] at hbeq
        obtain ⟨hkm, hkv2⟩ := hretMem kv hkv
        obtain ⟨hsub1, hsub2⟩ := CompilationKey.beq_subtype hbeq
        rcases costLe_total ec (kv.2.cost_1d sp dp) with hc | hc
        · exact hkv2 ⟨hsub2, hc⟩
        · have := hW kv hkm
          simp [hsub1, hc] at this
      intro a ha b hb hne hsub
      rw [mapInsert, hnokey] at ha hb
      simp only [Bool.false_eq_true, if_false] at ha hb
      rcases List.mem_append.mp ha with haR | haE
      · rcases List.mem_append.mp hb with hbR | hbE
        · exact h a (hretMem a haR).1 b (hretMem b hbR).1 hne hsub
        · -- a is an old entry, b is the new element
          simp only [List.mem_singleton] at hbE
          subst hbE
          by_contra hc
          simp only [Bool.not_eq_false] at hc
          have := hW a (hretMem a haR).1
          simp [hsub, hc] at this
      · rcases List.mem_append.mp hb with hbR | hbE
        · -- a is the new element, b an old entry
          simp only [List.mem_singleton] at haE
          subst haE
          by_contra hc
          simp only [Bool.not_eq_false] at hc
          exact (hretMem b hbR).2 ⟨hsub, hc⟩
        · simp only [List.mem_singleton] at haE hbE
          subst haE; subst hbE
          rw [CompilationKey.key_beq_refl] at hne
          cases hne
    next => exact h

/-- Claim C2: every candidate map the compiler builds is Pareto-minimal:
all maps start empty and are only modified by insert_elem, and after every
call to insert_elem there is no pair of distinct entries with the first a
subtype of the second at no greater cost. -/
theorem claim_C2_pareto (elems : List (AstElemExt Pk PkH)) (sp : Q)
    (dp : Option Q) :
    paretoOk (elems.foldl (fun m e => (insert_elem m e sp dp).1) [])
      sp dp := by
  suffices hgen : ∀ (l : List (AstElemExt Pk PkH)) (m : CandMap Pk PkH),
      paretoOk m sp dp →
      paretoOk (l.foldl (fun m e => (insert_elem m e sp dp).1) m) sp dp by
    exact hgen elems [] (by intro a ha; cases ha)
  intro l
  induction l with
  | nil => intro m hm; exact hm
  | cons x xs ih =>
      intro m hm
      exact ih _ (insert_elem_pareto hm)

/-! ## Claim theorems: from_str printability. -/

/-- Claim C7, as amended: from_str rejects with Unprintable exactly the
strings containing a byte below 20 or above 127; for every parser and
every input containing such a byte, the result is an Unprintable error on
such a byte.  (Bytes 20 to 31 and byte 127, though outside printable
ASCII, pass the gate; see the counterexample.) -/
theorem claim_C7_amended
    (parse : List Nat → Except ParseFailure (Miniscript Pk PkH))
    (s : List Nat) (b : Nat) (hb : b ∈ s) (hbad : b < 20 ∨ 127 < b) :
    ∃ c, (c ∈ s ∧ (c < 20 ∨ 127 < c)) ∧
      from_str parse s = .error (.unprintable c) := by
  unfold from_str
  cases hf : s.find? (fun ch => ch < 20 || ch > 127) with
  | none =>
      exfalso
      have := List.find?_eq_none.mp hf b hb
      simp only [Bool.or_eq_true, decide_eq_true_eq, not_or] at this
      omega
  | some ch =>
      refine ⟨ch, ⟨List.mem_of_find?_eq_some hf, ?_⟩, rfl⟩
      have := List.find?_some hf
      simp only [Bool.or_eq_true, decide_eq_true_eq] at this
      omega

/-- Claim C7, counterexample: the byte 127 (DEL) is outside the printable
ASCII range 32 to 126, yet from_str does not reject the one-byte string
consisting of it as Unprintable; the result instead comes from the
downstream parser. -/
theorem claim_C7_counterexample :
    from_str stubParse [127] =
      .error (.parseFailure .badExpression) ∧
    ((127 : Nat) < 32 ∨ 126 < (127 : Nat)) :=
  ⟨rfl, by omega⟩

/-- Claim C7, witness for the amended theorem: byte 10 is below 20, so any
string containing it is rejected as Unprintable. -/
theorem claim_C7_witness :
    ∃ c, (c ∈ [(10 : Nat)] ∧ (c < 20 ∨ 127 < c)) ∧
      from_str stubParse [10] = .error (.unprintable c) :=
  claim_C7_amended stubParse [10] 10 (by simp) (by omega)

/-! ## Claim theorems: equality and order of Miniscript. -/

/-- Claim C8: equality and ordering of Miniscript values depend only on
the AST node and ignore the cached type and extra-data fields: equality is
the equality of the nodes, comparison is the comparison of the nodes, and
in particular two values with the same node but arbitrary cached fields
are equal. -/
theorem claim_C8_eq_ord [DecidableEq Pk] [DecidableEq PkH]
    (cmpPk : Pk → Pk → Ordering) (cmpPkH : PkH → PkH → Ordering)
    (a b : Miniscript Pk PkH) :
    Miniscript.beqM a b = Terminal.beqT a.node b.node ∧
    Miniscript.cmp cmpPk cmpPkH a b =
      Terminal.cmp cmpPk cmpPkH a.node b.node ∧
    (a.node = b.node → Miniscript.beqM a b = true) := by
  cases a with
  | mk n1 t1 e1 =>
      cases b with
      | mk n2 t2 e2 =>
          refine ⟨by simp [Miniscript.beqM, Miniscript.node], ?_, ?_⟩
          · simp [Miniscript.cmp, Miniscript.node]
          · intro hn
            simp only [Miniscript.node] at hn
            subst hn
            simp [Miniscript.beqM, Terminal.beqT_refl]

/-! ## Claim theorems: translate_pk. -/

/-- Claim C9: translate_pk preserves the cached analysis data: whenever it
returns successfully, the result has the same cached type and the same
cached extra data as the input (only the keys of the node change). -/
theorem claim_C9_translate {Pk PkH Qk QkH E : Type}
    (translatefpk : Pk → Except E Qk)
    (translatefpkh : PkH → Except E QkH) (m : Miniscript Pk PkH)
    (m2 : Miniscript Qk QkH)
    (h : m.translate_pk translatefpk translatefpkh = .ok m2) :
    m2.ty = m.ty ∧ m2.ext = m.ext := by
  cases m with
  | mk node ty ext =>
      rw [Miniscript.translate_pk] at h
      cases ht : Terminal.translate_pk translatefpk translatefpkh node with
      | ok inner =>
          rw [ht] at h
          simp only [bind, Except.bind, pure, Except.pure, Except.ok.injEq]
            at h
          subst h
          exact ⟨rfl, rfl⟩
      | error e =>
          rw [ht] at h
          simp [bind, Except.bind] at h


/-- Claim C9, witness: translating the one-key Miniscript succeeds and
preserves the cached type and extra data. -/
theorem claim_C9_witness :
    tinyMs.translate_pk okU okU = .ok tinyMs ∧
    tinyMs.ty = tinyMs.ty ∧ tinyMs.ext = tinyMs.ext := by
  have h : tinyMs.translate_pk okU okU = .ok tinyMs := by
    simp [tinyMs, Miniscript.translate_pk, Terminal.translate_pk, okU,
      bind, Except.bind, pure, Except.pure]
  exact ⟨h, claim_C9_translate okU okU tinyMs tinyMs h⟩

/-! ## Claim theorems: the compiler entry point and its invariants. -/

/-- Claim C1: best_compilation either returns a Miniscript whose type has
base B, is safe and is non-malleable, or fails with one of the compiler
errors TopLevelNonSafe, ImpossibleNonMalleableCompilation or
MaxOpCountExceeded; the safety check comes first, so an unsafe best
compilation yields TopLevelNonSafe and only a safe but malleable best
compilation yields ImpossibleNonMalleableCompilation. -/
theorem claim_C1_best_compilation (fuel : Nat) (policy : Concrete Pk) :
    (∀ ms2 : Miniscript Pk PkH,
        best_compilation toHash fuel policy = .ok ms2 →
        ms2.ty.corr.base = MSBase.B ∧ ms2.ty.mall.safe = true ∧
        ms2.ty.mall.non_malleable = true) ∧
    (∀ e, best_compilation toHash fuel policy = .error (.cerr e) →
        e = CompilerError.topLevelNonSafe ∨
        e = CompilerError.impossibleNonMalleableCompilation ∨
        e = CompilerError.maxOpCountExceeded) ∧
    (∀ (x : AstElemExt Pk PkH) c2,
        best_t toHash fuel [] policy 1 none = .ok (x, c2) →
        (x.ms.ty.mall.safe = false →
          best_compilation toHash fuel policy =
            .error (.cerr .topLevelNonSafe)) ∧
        (x.ms.ty.mall.safe = true → x.ms.ty.mall.non_malleable = false →
          best_compilation toHash fuel policy =
            .error (.cerr .impossibleNonMalleableCompilation)) ∧
        (x.ms.ty.mall.safe = true → x.ms.ty.mall.non_malleable = true →
          best_compilation toHash fuel policy = .ok x.ms)) := by
  refine ⟨?_, ?_, ?_⟩
  · intro ms2 h
    unfold best_compilation at h
    obtain ⟨⟨x, c1⟩, hx, h⟩ := except_bind_ok h
    have hbase := best_t_ok toHash cacheOk_nil hx
    simp only [] at h
    split at h
    next => exact Except.noConfusion h
    next hsafe =>
      split at h
      next => exact Except.noConfusion h
      next hnm =>
        cases h
        refine ⟨hbase.1, ?_, ?_⟩
        · simpa using hsafe
        · simpa using hnm
  · intro e _
    cases e
    · exact Or.inl rfl
    · exact Or.inr (Or.inl rfl)
    · exact Or.inr (Or.inr rfl)
  · intro x c2 hx
    refine ⟨?_, ?_, ?_⟩
    · intro hsafe
      unfold best_compilation
      rw [hx]
      simp [bind, Except.bind, hsafe]
    · intro hsafe hnm
      unfold best_compilation
      rw [hx]
      simp [bind, Except.bind, hsafe, hnm]
    · intro hsafe hnm
      unfold best_compilation
      rw [hx]
      simp [bind, Except.bind, hsafe, hnm]

/-- Claim C1, witness: compiling the single-key policy succeeds and the
result is base B, safe and non-malleable. -/
theorem claim_C1_witness :
    ∃ ms2, best_compilation unitHash 40 (Concrete.key ()) = .ok ms2 ∧
      ms2.ty.corr.base = MSBase.B ∧ ms2.ty.mall.safe = true ∧
      ms2.ty.mall.non_malleable = true := by
  have hok : isOkB
      (best_compilation unitHash 40 (Concrete.key ())) = true := by decide
  cases h : best_compilation unitHash 40 (Concrete.key ()) with
  | ok ms2 =>
      exact ⟨ms2, rfl,
        (claim_C1_best_compilation unitHash 40 (Concrete.key ())).1 ms2 h⟩
  | error e =>
      rw [h] at hok
      exact Bool.noConfusion hok

/-- Claim C3: insert_elem rejects malleable elements and elements whose
satisfaction opcode count exceeds MAX_OPS_PER_SCRIPT without touching the
map, so every candidate in every map best_compilations returns is
non-malleable with a satisfaction opcode count of at most 201. -/
theorem claim_C3_insert_elem_rejects (fuel : Nat) (cache : Cache Pk PkH)
    (policy : Concrete Pk) (sp : Q) (dp : Option Q)
    (r : CandMap Pk PkH × Cache Pk PkH) (hc : cacheOk cache)
    (h : best_compilations toHash fuel cache policy sp dp = .ok r) :
    (∀ (m : CandMap Pk PkH) (e : AstElemExt Pk PkH),
        e.ms.ty.mall.non_malleable = false →
        insert_elem m e sp dp = (m, false)) ∧
    (∀ (m : CandMap Pk PkH) (e : AstElemExt Pk PkH) (op : Nat),
        e.ms.ext.ops_count_sat = some op → MAX_OPS_PER_SCRIPT < op →
        insert_elem m e sp dp = (m, false)) ∧
    (∀ kv ∈ r.1, kv.2.ms.ty.mall.non_malleable = true ∧
        ∀ op, kv.2.ms.ext.ops_count_sat = some op →
          op ≤ MAX_OPS_PER_SCRIPT) := by
  refine ⟨?_, ?_, ?_⟩
  · intro m e he
    simp [insert_elem, he]
  · intro m e op hop hgt
    simp [insert_elem, hop, hgt]
  · intro kv hkv
    have H := (compilerSteps_ok toHash fuel).1 _ _ _ _ _ hc h
    have hE := H.1 kv hkv
    exact ⟨hE.2.1, hE.2.2⟩

/-- Claim C3, witness: the compilation map of the single-key policy is
non-empty and each of its candidates is non-malleable with opcode count
within the limit. -/
theorem claim_C3_witness :
    ∃ r, best_compilations unitHash 40 ([] : Cache Unit Unit)
        (Concrete.key ()) 1 none = .ok r ∧
      ∀ kv ∈ r.1, kv.2.ms.ty.mall.non_malleable = true ∧
        ∀ op, kv.2.ms.ext.ops_count_sat = some op →
          op ≤ MAX_OPS_PER_SCRIPT := by
  have hok : isOkB (best_compilations unitHash 40 ([] : Cache Unit Unit)
      (Concrete.key ()) 1 none) = true := by decide
  cases h : best_compilations unitHash 40 ([] : Cache Unit Unit)
      (Concrete.key ()) 1 none with
  | ok r =>
      exact ⟨r, rfl, (claim_C3_insert_elem_rejects unitHash 40 []
        (Concrete.key ()) 1 none r cacheOk_nil h).2.2⟩
  | error e =>
      rw [h] at hok
      exact Bool.noConfusion hok

/-- Claim C10: on a well-formed cache, a successful best_compilations call
returns a non-empty map every key of which carries the dissatisfaction
probability of the call (as an f64 value). -/
theorem claim_C10_best_compilations_keys (fuel : Nat)
    (cache : Cache Pk PkH) (policy : Concrete Pk) (sp : Q) (dp : Option Q)
    (r : CandMap Pk PkH × Cache Pk PkH) (hc : cacheOk cache)
    (h : best_compilations toHash fuel cache policy sp dp = .ok r) :
    (∀ kv ∈ r.1, Q.obeq kv.1.dissat_prob dp = true) ∧ r.1 ≠ [] := by
  have H := (compilerSteps_ok toHash fuel).1 _ _ _ _ _ hc h
  exact ⟨H.2.1, H.2.2.2⟩

/-- Claim C10, witness: for the single-key policy at dissatisfaction
probability None, the returned map is non-empty and all its keys carry
dissatisfaction probability None. -/
theorem claim_C10_witness :
    ∃ r, best_compilations unitHash 40 ([] : Cache Unit Unit)
        (Concrete.key ()) 1 none = .ok r ∧
      (∀ kv ∈ r.1, Q.obeq kv.1.dissat_prob none = true) ∧ r.1 ≠ [] := by
  have hok : isOkB (best_compilations unitHash 40 ([] : Cache Unit Unit)
      (Concrete.key ()) 1 none) = true := by decide
  cases h : best_compilations unitHash 40 ([] : Cache Unit Unit)
      (Concrete.key ()) 1 none with
  | ok r =>
      exact ⟨r, rfl, claim_C10_best_compilations_keys unitHash 40 []
        (Concrete.key ()) 1 none r cacheOk_nil h⟩
  | error e =>
      rw [h] at hok
      exact Bool.noConfusion hok

/-- Claim C2, witness: a concrete fold of insert_elem from the empty map
is Pareto-minimal. -/
theorem claim_C2_witness :
    paretoOk (([⟨tinyMs, ⟨none, 0, some 0⟩⟩] :
        List (AstElemExt Unit Unit)).foldl
      (fun m e => (insert_elem m e 1 none).1) []) 1 none :=
  claim_C2_pareto [⟨tinyMs, ⟨none, 0, some 0⟩⟩] 1 none


/-- Claim C8, witness: two Miniscripts with equal nodes but different
cached type and extra data are equal. -/
theorem claim_C8_witness : Miniscript.beqM tinyMs otherMs = true :=
  (claim_C8_eq_ord (fun _ _ => Ordering.eq) (fun _ _ => Ordering.eq)
    tinyMs otherMs).2.2 rfl
